import Mathlib

/-!
Verification of the `OsmApiDbBulkWriter` bulk element writer
(`hoot/core/io/OsmApiDbBulkWriter.cpp`).

The development shallowly embeds the writer: the PostgreSQL copy-text
encoder (`_escapeCopyToData`), the per-line id-offset rewrite of the
online mode (`_updateIdOffsetsInNewFile`), the combined-file assembly
(`_writeCombinedSqlFile`), and the streaming writer state machine
(`writePartial` for nodes, ways and relations, the changeset
accumulator, the unresolved-reference index, and `finalizePartial`).
Timestamps, bounding boxes and tile numbers are not modelled: they are
impure (wall-clock, external tile algorithm) and no claim refers to
them.  All other columns of every row are carried.
-/

namespace Hoot

/-! ## Encoder: `_escapeCopyToData` (source lines 1265-1280)

`QString::replace(QChar, QString)` replaces every occurrence of the
character; the source applies seven such replacements in sequence,
backslash first. -/

/-- `QString::replace(QChar c, QString r)`: replace every occurrence of
the character `c` by the string `r`. -/
def replaceQChar (c : Char) (r : List Char) (s : List Char) : List Char :=
  s.flatMap (fun x => if x = c then r else [x])

/-- `OsmApiDbBulkWriter::_escapeCopyToData`: the seven sequential
replacements of the source, in source order (backslash first, then the
control characters 8, 9, 10, 11, 12, 13). -/
def escapeCopyToData (s : List Char) : List Char :=
  replaceQChar (Char.ofNat 13) ['\\', 'r']
    (replaceQChar (Char.ofNat 12) ['\\', 'f']
      (replaceQChar (Char.ofNat 11) ['\\', 'v']
        (replaceQChar (Char.ofNat 10) ['\\', 'n']
          (replaceQChar (Char.ofNat 9) ['\\', 't']
            (replaceQChar (Char.ofNat 8) ['\\', 'b']
              (replaceQChar '\\' ['\\', '\\'] s))))))

/-- The per-character normal form of the escape: backslash doubles, each
of the six control characters becomes backslash plus its letter, every
other character passes through. -/
def escapeChar (c : Char) : List Char :=
  if c = '\\' then ['\\', '\\']
  else if c = Char.ofNat 8 then ['\\', 'b']
  else if c = Char.ofNat 9 then ['\\', 't']
  else if c = Char.ofNat 10 then ['\\', 'n']
  else if c = Char.ofNat 11 then ['\\', 'v']
  else if c = Char.ofNat 12 then ['\\', 'f']
  else if c = Char.ofNat 13 then ['\\', 'r']
  else [c]

/-- Escape applied to a `String` (used for tag keys, tag values and
relation-member roles). -/
def escapeStr (s : String) : String :=
  String.mk (escapeCopyToData s.data)

/-- The escape letter of the six control characters the encoder
replaces; `none` for every other character. -/
def specialLetter (c : Char) : Option Char :=
  if c = Char.ofNat 8 then some 'b'
  else if c = Char.ofNat 9 then some 't'
  else if c = Char.ofNat 10 then some 'n'
  else if c = Char.ofNat 11 then some 'v'
  else if c = Char.ofNat 12 then some 'f'
  else if c = Char.ofNat 13 then some 'r'
  else none

/-! ## OffsetRewriter: `_updateIdOffsetsInNewFile` (source lines 321-494)

The second pass of the online mode splits each copy-data line on tabs
and adds the per-table id offsets to the id columns.  The cell-level
transform of one record line is embedded here; `QString::toLong` (0 on
parse failure) and `QString::number` are modelled below. -/

/-- Digits of a decimal string, `none` when empty or not all digits. -/
def digitsToNat (cs : List Char) : Option Nat :=
  if cs = [] then none
  else cs.foldl
    (fun acc c => acc.bind (fun a => if c.isDigit then some (a * 10 + (c.toNat - 48)) else none))
    (some 0)

/-- `QString::toLong` restricted to base 10: an optional leading minus
sign followed by decimal digits; returns `0` when the string does not
parse (mirrors Qt's convention of returning 0 on failure). -/
def qtoLong (s : String) : Int :=
  match s.data with
  | '-' :: rest =>
    match digitsToNat rest with
    | some n => -(n : Int)
    | none => 0
  | l =>
    match digitsToNat l with
    | some n => (n : Int)
    | none => 0

/-- `QString::number(long)`. -/
def qnumber (i : Int) : String :=
  toString i

/-- `QString::toLower`. -/
def strToLower (s : String) : String :=
  String.mk (s.data.map Char.toLower)

/-- The four id offsets the rewrite pass adds: the values of
`_changesetData.currentChangesetId`, `_idMappings.currentNodeId`,
`_idMappings.currentWayId` and `_idMappings.currentRelationId` at
rewrite time. -/
structure IdOffsets where
  currentChangesetId : Int
  currentNodeId : Int
  currentWayId : Int
  currentRelationId : Int
deriving DecidableEq, Repr

/-- One record line of `_updateIdOffsetsInNewFile` (source lines
365-436): the line is split on tabs into `cells`; depending on the
current table name, id cells get the matching offset added.  In the
`current_relation_members`/`relation_members` branch the member id at
cell 2 is offset by the node base when the member kind lowercases to
"node" and by the way base when it lowercases to "way"; the source has
no branch for "relation" (lines 398-411), so for a `Relation` member
cell 2 is left unchanged.  Unrecognised tables leave the line as is
(`lineUpdated = false`).  The table names are the values of the `ApiDb`
name getters, modelled from the spec's canonical-order list. -/
def updateIdOffsetsRecordLine (off : IdOffsets) (currentTableName : String)
    (cells : List String) : List String :=
  if currentTableName = "changesets" then
    cells.set 0 (qnumber (qtoLong (cells.getD 0 "") + off.currentChangesetId))
  else if currentTableName = "current_nodes" ∨ currentTableName = "nodes" then
    (cells.set 0 (qnumber (qtoLong (cells.getD 0 "") + off.currentNodeId))).set 3
      (qnumber (qtoLong (cells.getD 3 "") + off.currentChangesetId))
  else if currentTableName = "current_ways" ∨ currentTableName = "ways" then
    (cells.set 0 (qnumber (qtoLong (cells.getD 0 "") + off.currentWayId))).set 1
      (qnumber (qtoLong (cells.getD 1 "") + off.currentChangesetId))
  else if currentTableName = "current_way_nodes" ∨ currentTableName = "way_nodes" then
    (cells.set 0 (qnumber (qtoLong (cells.getD 0 "") + off.currentWayId))).set 1
      (qnumber (qtoLong (cells.getD 1 "") + off.currentNodeId))
  else if currentTableName = "current_relations" ∨ currentTableName = "relations" then
    (cells.set 0 (qnumber (qtoLong (cells.getD 0 "") + off.currentRelationId))).set 1
      (qnumber (qtoLong (cells.getD 1 "") + off.currentChangesetId))
  else if currentTableName = "current_relation_members"
      ∨ currentTableName = "relation_members" then
    let cells := cells.set 0 (qnumber (qtoLong (cells.getD 0 "") + off.currentRelationId))
    let memberId := qtoLong (cells.getD 2 "")
    if strToLower (cells.getD 1 "") = "node" then
      cells.set 2 (qnumber (memberId + off.currentNodeId))
    else if strToLower (cells.getD 1 "") = "way" then
      cells.set 2 (qnumber (memberId + off.currentWayId))
    else
      cells
  else if currentTableName = "current_node_tags" ∨ currentTableName = "node_tags" then
    cells.set 0 (qnumber (qtoLong (cells.getD 0 "") + off.currentNodeId))
  else if currentTableName = "current_way_tags" ∨ currentTableName = "way_tags" then
    cells.set 0 (qnumber (qtoLong (cells.getD 0 "") + off.currentWayId))
  else if currentTableName = "current_relation_tags" ∨ currentTableName = "relation_tags" then
    cells.set 0 (qnumber (qtoLong (cells.getD 0 "") + off.currentRelationId))
  else
    cells

/-! ## Assembler: `_createSectionNameList` and `_writeCombinedSqlFile`
(source lines 739-764 and 192-319)

`_writeCombinedSqlFile` writes `BEGIN TRANSACTION;`, then for every
present section, in the canonical order, appends `\.\n\n\n` to the
section file when it is a copy-data section and echoes the file line by
line; the `do { line = readLine(); out << line << "\n"; } while
(!line.isNull())` loop also echoes the final null read, adding one more
empty output line per section.  In online mode the `sequence_updates`
section is skipped.  Finally `COMMIT;` is written without a trailing
newline. -/

/-- The writer mode (`osmapidb.bulk.writer.mode`). -/
inductive Mode
  | offline
  | online
deriving DecidableEq, Repr

/-- `_createSectionNameList`: the canonical section order. -/
def sectionNames : List String :=
  ["byte_order_mark", "sequence_updates", "changesets",
   "current_nodes", "current_node_tags", "nodes", "node_tags",
   "current_ways", "current_way_nodes", "current_way_tags",
   "ways", "way_nodes", "way_tags",
   "current_relations", "current_relation_members", "current_relation_tags",
   "relations", "relation_members", "relation_tags"]

/-- The copy-data section names: every canonical section except
`byte_order_mark` and `sequence_updates` (those two get no `\.`
terminator, source line 234). -/
def copySectionNames : List String :=
  sectionNames.filter (fun n => n ≠ "byte_order_mark" ∧ n ≠ "sequence_updates")

/-- The output lines contributed by one present section: its file lines
(with the `\.`, empty, empty terminator appended first when it is a
copy-data section), plus the one empty line the copy loop emits for the
final null `readLine`. -/
def sectionOutputLines (name : String) (content : List String) : List String :=
  (if name ≠ "byte_order_mark" ∧ name ≠ "sequence_updates"
    then content ++ ["\\.", "", ""] else content) ++ [""]

/-- The lines a single canonical section contributes to the combined
file: nothing when the section is absent or when it is
`sequence_updates` in online mode. -/
def sectionChunk (mode : Mode) (ctn : String → Option (List String)) (name : String) :
    List String :=
  if mode = Mode.online ∧ name = "sequence_updates" then []
  else
    match ctn name with
    | none => []
    | some content => sectionOutputLines name content

/-- `_writeCombinedSqlFile` as the list of lines of the combined file:
`BEGIN TRANSACTION;`, the chunks of the present sections in canonical
order, then `COMMIT;`.  `ctn` gives each section's temporary-file lines
(header first), `none` for an absent section. -/
def writeCombinedSqlFileLines (mode : Mode) (ctn : String → Option (List String)) :
    List String :=
  "BEGIN TRANSACTION;" :: (sectionNames.flatMap (sectionChunk mode ctn) ++ ["COMMIT;"])

/-- The number of consecutive empty lines at the head of a line list. -/
def countLeadingBlanks : List String → Nat
  | [] => 0
  | l :: ls => if l = "" then countLeadingBlanks ls + 1 else 0

/-- For every `\.` terminator line, the length of the run of empty lines
immediately following it, in file order. -/
def blankRunsAfterTerminators : List String → List Nat
  | [] => []
  | l :: ls =>
    if l = "\\." then countLeadingBlanks ls :: blankRunsAfterTerminators ls
    else blankRunsAfterTerminators ls

/-- The number of copy-data sections present in a section-content
assignment. -/
def presentCopyCount (ctn : String → Option (List String)) : Nat :=
  (copySectionNames.filter (fun n => (ctn n).isSome)).length

/-! ## Data model: elements -/

/-- `ElementType`: the three element kinds. -/
inductive ElementType
  | node
  | way
  | relation
deriving DecidableEq, Repr

/-- A node as consumed by `writePartial(ConstNodePtr)`: source id,
latitude (`getY`), longitude (`getX`) in degrees, and tags.
Coordinates are exact rationals standing for the C++ doubles. -/
structure NodeE where
  id : Int
  lat : ℚ
  lon : ℚ
  tags : List (String × String)
deriving DecidableEq

/-- A way: source id, ordered way-node source ids, tags. -/
structure WayE where
  id : Int
  nodeIds : List Int
  tags : List (String × String)
deriving DecidableEq

/-- One relation member: kind, member source id, role. -/
structure RelMember where
  memberType : ElementType
  memberId : Int
  role : String
deriving DecidableEq, Repr

/-- A relation: source id, ordered members, tags. -/
structure RelationE where
  id : Int
  members : List RelMember
  tags : List (String × String)
deriving DecidableEq

/-- A streamed element. -/
inductive Element
  | node (n : NodeE)
  | way (w : WayE)
  | relation (r : RelationE)
deriving DecidableEq

/-! ## Data model: emitted rows

The timestamp, visible, version, tile and redaction columns are
constants or impure values and are not modelled; every id, coordinate,
text and count column is carried.  A `current_X` row and its history
`X` row carry the same modelled fields, so both sections reuse one row
type. -/

/-- A `current_nodes`/`nodes` row: id, latitude and longitude in
nanodegrees, changeset id. -/
structure NodeRow where
  id : Int
  latitude : Int
  longitude : Int
  changesetId : Int
deriving DecidableEq, Repr

/-- A `current_ways`/`ways` row. -/
structure WayRow where
  id : Int
  changesetId : Int
deriving DecidableEq, Repr

/-- A `current_way_nodes`/`way_nodes` row. -/
structure WayNodeRow where
  wayId : Int
  nodeId : Int
  sequenceId : Nat
deriving DecidableEq, Repr

/-- A `current_relations`/`relations` row. -/
structure RelationRow where
  id : Int
  changesetId : Int
deriving DecidableEq, Repr

/-- A `current_relation_members`/`relation_members` row. -/
structure MemberRow where
  relationId : Int
  memberType : ElementType
  memberId : Int
  memberRole : String
  sequenceId : Nat
deriving DecidableEq, Repr

/-- A tag row (`*_tags` tables): element id, escaped key, escaped
value. -/
structure TagRow where
  elemId : Int
  k : String
  v : String
deriving DecidableEq, Repr

/-- A `changesets` row: id, user id, number of changes (the bounding-box
and timestamp columns are not modelled). -/
structure ChangesetRow where
  id : Int
  userId : Int
  numChanges : Nat
deriving DecidableEq, Repr

/-- The section contents (`_outputSections`), one row list per table.
Only `changesets` is an `Option`: its creation is conditional on
`currentChangesetId == 1` (source line 1291), and writing it while
absent dereferences the default-constructed null stream; every other
table is created before its first use. -/
structure OutputSections where
  changesets : Option (List ChangesetRow)
  currentNodes : List NodeRow
  nodes : List NodeRow
  currentNodeTags : List TagRow
  nodeTags : List TagRow
  currentWays : List WayRow
  ways : List WayRow
  currentWayNodes : List WayNodeRow
  wayNodes : List WayNodeRow
  currentWayTags : List TagRow
  wayTags : List TagRow
  currentRelations : List RelationRow
  relations : List RelationRow
  currentRelationMembers : List MemberRow
  relationMembers : List MemberRow
  currentRelationTags : List TagRow
  relationTags : List TagRow
deriving DecidableEq

/-! ## Data model: writer state -/

/-- `_writeStats`. -/
structure WriteStats where
  nodesWritten : Nat
  nodeTagsWritten : Nat
  waysWritten : Nat
  wayNodesWritten : Nat
  wayTagsWritten : Nat
  relationsWritten : Nat
  relationMembersWritten : Nat
  relationMembersUnresolved : Nat
  relationTagsWritten : Nat
deriving DecidableEq, Repr

/-- `_changesetData` (the bounding box is not modelled). -/
structure ChangesetData where
  changesetUserId : Int
  currentChangesetId : Int
  changesInChangeset : Nat
  changesetsWritten : Nat
deriving DecidableEq, Repr

/-- `_idMappings`: per-kind next id and source-to-db `BigMap`, the map
a nullable pointer (`none` until first element of the kind), embedded
as an association list in insertion order. -/
structure IdMappings where
  currentNodeId : Int
  nodeIdMap : Option (List (Int × Int))
  currentWayId : Int
  wayIdMap : Option (List (Int × Int))
  currentRelationId : Int
  relationIdMap : Option (List (Int × Int))
deriving DecidableEq

/-- The key of `_unresolvedRefs.unresolvedRelationRefs`: the expected
member's `ElementId`. -/
abbrev ElementKey := ElementType × Int

/-- `UnresolvedRelationReference`. -/
structure UnresolvedRelationReference where
  sourceRelationId : Int
  sourceDbRelationId : Int
  relationMemberData : RelMember
  relationMemberSequenceId : Nat
deriving DecidableEq, Repr

/-- `_unresolvedRefs`.  `unresolvedRelationRefs` embeds the source's
`std::map<ElementId, UnresolvedRelationReference>` as an association
list with unique keys.  `unresolvedWaynodeKeys` models the key set of
`unresolvedWaynodeRefs`, which the source never populates (unresolved
way-nodes throw instead). -/
structure UnresolvedRefs where
  unresolvedRelationRefs : Option (List (ElementKey × UnresolvedRelationReference))
  unresolvedWaynodeKeys : Option (List Int)
deriving DecidableEq

/-- The whole mutable state of the writer. -/
structure WriterState where
  writeStats : WriteStats
  changesetData : ChangesetData
  idMappings : IdMappings
  unresolvedRefs : UnresolvedRefs
  sections : OutputSections
deriving DecidableEq

/-- The configuration captured by `setConfiguration`. -/
structure WriterConfig where
  changesetUserId : Int
  maxChangesetSize : Nat
deriving DecidableEq, Repr

/-- The database sequence state read by `_getLatestIdsFromDb`:
`getNextId` per kind. -/
structure DbState where
  nextChangesetId : Int
  nextNodeId : Int
  nextWayId : Int
  nextRelationId : Int
deriving DecidableEq, Repr

/-- The errors the writer can raise (each a `HootException` or
`NotImplementedException` in the source); `nullMapDeref` and
`missingChangesetsSection` stand for the crashes of dereferencing a
null `BigMap` pointer or a default-constructed section stream. -/
inductive WriterError
  | updateNotSupported (t : ElementType) (sourceId : Int)
  | invalidLatitude (lat : ℚ)
  | invalidLongitude (lon : ℚ)
  | unresolvedWayNode (wayDbId : Int) (nodeId : Int)
  | unsupportedUnresolvedWayNode (nodeId : Int)
  | invalidUserId (userId : Int)
  | nullMapDeref
  | missingChangesetsSection
  | cannotLockIdsNoNodes
deriving DecidableEq

instance {ε α : Type} [DecidableEq ε] [DecidableEq α] : DecidableEq (Except ε α) := fun x y =>
  match x, y with
  | .ok a, .ok b =>
    if h : a = b then isTrue (by rw [h]) else isFalse (by intro hh; cases hh; exact h rfl)
  | .error a, .error b =>
    if h : a = b then isTrue (by rw [h]) else isFalse (by intro hh; cases hh; exact h rfl)
  | .ok _, .error _ => isFalse (by intro hh; cases hh)
  | .error _, .ok _ => isFalse (by intro hh; cases hh)

/-! ## `BigMap` and `std::map` operations -/

/-- `BigMap::contains`. -/
def bmContains (m : List (Int × Int)) (k : Int) : Bool :=
  m.any (fun p => p.1 = k)

/-- `BigMap::at` (0 when absent; callers guard with `contains`). -/
def bmAt (m : List (Int × Int)) (k : Int) : Int :=
  ((m.find? (fun p => p.1 = k)).map (fun p => p.2)).getD 0

/-- `BigMap::insert` (callers insert only unseen keys). -/
def bmInsert (m : List (Int × Int)) (k v : Int) : List (Int × Int) :=
  m ++ [(k, v)]

/-- `std::map::insert`: inserts only when the key is absent — a second
insert with the same key silently does nothing. -/
def smInsert (m : List (ElementKey × UnresolvedRelationReference)) (k : ElementKey)
    (v : UnresolvedRelationReference) : List (ElementKey × UnresolvedRelationReference) :=
  if m.any (fun p => decide (p.1 = k)) then m else m ++ [(k, v)]

/-- `std::map::find` (unique key, so the first match). -/
def smFind (m : List (ElementKey × UnresolvedRelationReference)) (k : ElementKey) :
    Option UnresolvedRelationReference :=
  (m.find? (fun p => decide (p.1 = k))).map (fun p => p.2)

/-- `std::map::erase` at the iterator returned by `find`. -/
def smErase (m : List (ElementKey × UnresolvedRelationReference)) (k : ElementKey) :
    List (ElementKey × UnresolvedRelationReference) :=
  m.eraseP (fun p => decide (p.1 = k))

/-! ## Coordinate conversion: `_convertDegreesToNanodegrees`
(source lines 851-854)

The function computes `round(degrees * ApiDb::COORDINATE_SCALE)` but
its return type is `unsigned int`; the result is then bound to
`const int` at the call site (source lines 860-861).  The two
narrowings are embedded as reduction modulo `2^32` followed by the
two's-complement reinterpretation — the behaviour of the mainstream
x86 toolchains (ISO C++ leaves the out-of-range float-to-unsigned
conversion undefined). -/

/-- `ApiDb::COORDINATE_SCALE` — modelled from the spec:
nanodegrees are `degrees × 1e7`. -/
def COORDINATE_SCALE : Int := 10000000

/-- The C library `round()`: round `num / den` (with `den > 0`) to the
nearest integer, halves away from zero. -/
def roundHalfAway (num : Int) (den : Nat) : Int :=
  if num < 0 then -((-num * 2 + den) / (2 * (den : Int)))
  else (num * 2 + den) / (2 * (den : Int))

/-- `_convertDegreesToNanodegrees`: `round(degrees * COORDINATE_SCALE)`
as an `unsigned int`, i.e. reduced modulo `2^32`.  The degrees double
is an exact rational here, so `degrees * 1e7` is the exact rational
`(num * 1e7) / den` and the rounding is computed on it directly. -/
def convertDegreesToNanodegrees (degrees : ℚ) : Int :=
  (roundHalfAway (degrees.num * COORDINATE_SCALE) degrees.den) % 4294967296

/-- The `unsigned int` to `const int` binding at the call site:
two's-complement reinterpretation of the 32-bit value. -/
def asInt32 (u : Int) : Int :=
  if u < 2147483648 then u else u - 4294967296

/-- Latitude accepted by the bounds check of `_writeNodeToTables`. -/
def latValid (lat : ℚ) : Prop :=
  -900000000 ≤ asInt32 (convertDegreesToNanodegrees lat) ∧
    asInt32 (convertDegreesToNanodegrees lat) ≤ 900000000

/-- Longitude accepted by the bounds check of `_writeNodeToTables`. -/
def lonValid (lon : ℚ) : Prop :=
  -1800000000 ≤ asInt32 (convertDegreesToNanodegrees lon) ∧
    asInt32 (convertDegreesToNanodegrees lon) ≤ 1800000000

instance (lat : ℚ) : Decidable (latValid lat) := by unfold latValid; infer_instance

instance (lon : ℚ) : Decidable (lonValid lon) := by unfold lonValid; infer_instance

/-! ## Writer operations -/

/-- The state after `_reset()` with the configured user id
(`setConfiguration` stores it into `_changesetData.changesetUserId`). -/
def initState (cfg : WriterConfig) : WriterState where
  writeStats := ⟨0, 0, 0, 0, 0, 0, 0, 0, 0⟩
  changesetData := ⟨cfg.changesetUserId, 1, 0, 0⟩
  idMappings := ⟨1, none, 1, none, 1, none⟩
  unresolvedRefs := ⟨none, none⟩
  sections := ⟨none, [], [], [], [], [], [], [], [], [], [], [], [], [], [], [], []⟩

/-- `_getLatestIdsFromDb` (source lines 580-602): read the next id of
each sequence; in online mode each value is then decremented. -/
def getLatestIdsFromDb (mode : Mode) (db : DbState) (st : WriterState) : WriterState :=
  let st :=
    { st with
      idMappings :=
        { st.idMappings with
          currentNodeId := db.nextNodeId
          currentWayId := db.nextWayId
          currentRelationId := db.nextRelationId }
      changesetData := { st.changesetData with currentChangesetId := db.nextChangesetId } }
  if mode = Mode.online then
    { st with
      idMappings :=
        { st.idMappings with
          currentNodeId := st.idMappings.currentNodeId - 1
          currentWayId := st.idMappings.currentWayId - 1
          currentRelationId := st.idMappings.currentRelationId - 1 }
      changesetData :=
        { st.changesetData with
          currentChangesetId := st.changesetData.currentChangesetId - 1 } }
  else st

/-- `open(url)` as far as state is concerned: in offline mode the
current ids are fetched from the database up front. -/
def openWriter (mode : Mode) (db : DbState) (cfg : WriterConfig) : WriterState :=
  if mode = Mode.offline then getLatestIdsFromDb mode db (initState cfg) else initState cfg

/-- `_writeChangesetToTable` (source lines 1282-1321): reject user id
-1; create the `changesets` section when `currentChangesetId == 1`
(a fresh file); append the changeset row; reset `changesInChangeset`
to 0 (the increments of `changesetsWritten` and `currentChangesetId`
are commented out in the source). -/
def writeChangesetToTable (st : WriterState) : Except WriterError WriterState :=
  if st.changesetData.changesetUserId = -1 then
    .error (.invalidUserId st.changesetData.changesetUserId)
  else
    let sections :=
      if st.changesetData.currentChangesetId = 1 then
        { st.sections with changesets := some [] }
      else st.sections
    match sections.changesets with
    | none => .error .missingChangesetsSection
    | some rows =>
      .ok
        { st with
          sections :=
            { sections with
              changesets :=
                some (rows ++
                  [⟨st.changesetData.currentChangesetId, st.changesetData.changesetUserId,
                    st.changesetData.changesInChangeset⟩]) }
          changesetData := { st.changesetData with changesInChangeset := 0 } }

/-- `_incrementChangesInChangeset` (source lines 1196-1223): count the
change; at `_maxChangesetSize` flush the changeset row and rotate
(increment `currentChangesetId`, reset the counter and bounds,
increment `changesetsWritten`). -/
def incrementChangesInChangeset (cfg : WriterConfig) (st : WriterState) :
    Except WriterError WriterState :=
  let st :=
    { st with
      changesetData :=
        { st.changesetData with changesInChangeset := st.changesetData.changesInChangeset + 1 } }
  if st.changesetData.changesInChangeset = cfg.maxChangesetSize then
    match writeChangesetToTable st with
    | .error e => .error e
    | .ok st =>
      .ok
        { st with
          changesetData :=
            { st.changesetData with
              currentChangesetId := st.changesetData.currentChangesetId + 1
              changesInChangeset := 0
              changesetsWritten := st.changesetData.changesetsWritten + 1 } }
  else .ok st

/-- `_writeRelationMember` (source lines 1116-1160): append the member
row to `current_relation_members` and `relation_members` (role
escaped), and count it. -/
def writeRelationMember (st : WriterState) (sourceRelationDbId : Int)
    (memberEntry : RelMember) (memberDbId : Int) (memberSequenceIndex : Nat) : WriterState :=
  let row : MemberRow :=
    ⟨sourceRelationDbId, memberEntry.memberType, memberDbId,
      escapeStr memberEntry.role, memberSequenceIndex⟩
  { st with
    sections :=
      { st.sections with
        currentRelationMembers := st.sections.currentRelationMembers ++ [row]
        relationMembers := st.sections.relationMembers ++ [row] }
    writeStats :=
      { st.writeStats with
        relationMembersWritten := st.writeStats.relationMembersWritten + 1 } }

/-- `_checkUnresolvedReferences` (source lines 1225-1263): if a pending
relation reference keys on this element, emit its member rows with the
just-assigned db id and erase the entry; a node that keys a pending
way-node reference would throw (that map is never populated). -/
def checkUnresolvedReferences (st : WriterState) (t : ElementType) (sourceId : Int)
    (elementDbId : Int) : Except WriterError WriterState :=
  let st :=
    match st.unresolvedRefs.unresolvedRelationRefs with
    | none => st
    | some m =>
      match smFind m (t, sourceId) with
      | none => st
      | some ref =>
        let st := writeRelationMember st ref.sourceDbRelationId ref.relationMemberData
          elementDbId ref.relationMemberSequenceId
        { st with
          unresolvedRefs :=
            { st.unresolvedRefs with unresolvedRelationRefs := some (smErase m (t, sourceId)) } }
  if t = ElementType.node then
    match st.unresolvedRefs.unresolvedWaynodeKeys with
    | some keys =>
      if keys.contains sourceId then .error (.unsupportedUnresolvedWayNode sourceId)
      else .ok st
    | none => .ok st
  else .ok st

/-- `_writeNodeToTables` (source lines 856-901): convert the
coordinates, check the nanodegree bounds, append the `current_nodes`
and `nodes` rows. -/
def writeNodeToTables (st : WriterState) (n : NodeE) (nodeDbId : Int) :
    Except WriterError WriterState :=
  let nodeYNanodegrees := asInt32 (convertDegreesToNanodegrees n.lat)
  let nodeXNanodegrees := asInt32 (convertDegreesToNanodegrees n.lon)
  let changesetId := st.changesetData.currentChangesetId
  if nodeYNanodegrees < -900000000 ∨ nodeYNanodegrees > 900000000 then
    .error (.invalidLatitude n.lat)
  else if nodeXNanodegrees < -1800000000 ∨ nodeXNanodegrees > 1800000000 then
    .error (.invalidLongitude n.lon)
  else
    .ok
      { st with
        sections :=
          { st.sections with
            currentNodes :=
              st.sections.currentNodes ++
                [⟨nodeDbId, nodeYNanodegrees, nodeXNanodegrees, changesetId⟩]
            nodes :=
              st.sections.nodes ++
                [⟨nodeDbId, nodeYNanodegrees, nodeXNanodegrees, changesetId⟩] } }

/-- `_writeTagsToTables` (source lines 903-921): one current row and
one history row per tag, key and value escaped. -/
def tagRows (tags : List (String × String)) (dbId : Int) : List TagRow :=
  tags.map (fun kv => ⟨dbId, escapeStr kv.1, escapeStr kv.2⟩)

/-- `writePartial(ConstNodePtr)` (source lines 604-647). -/
def writePartialNode (cfg : WriterConfig) (st : WriterState) (n : NodeE) :
    Except WriterError WriterState :=
  let st :=
    if st.writeStats.nodesWritten = 0 then
      { st with idMappings := { st.idMappings with nodeIdMap := some [] } }
    else st
  match st.idMappings.nodeIdMap with
  | none => .error .nullMapDeref
  | some mp =>
    if bmContains mp n.id then .error (.updateNotSupported .node n.id)
    else
      let nodeDbId := st.idMappings.currentNodeId
      let st :=
        { st with
          idMappings :=
            { st.idMappings with
              nodeIdMap := some (bmInsert mp n.id nodeDbId)
              currentNodeId := st.idMappings.currentNodeId + 1 } }
      match writeNodeToTables st n nodeDbId with
      | .error e => .error e
      | .ok st =>
        let st :=
          { st with
            sections :=
              { st.sections with
                currentNodeTags := st.sections.currentNodeTags ++ tagRows n.tags nodeDbId
                nodeTags := st.sections.nodeTags ++ tagRows n.tags nodeDbId }
            writeStats :=
              { st.writeStats with
                nodesWritten := st.writeStats.nodesWritten + 1
                nodeTagsWritten := st.writeStats.nodeTagsWritten + n.tags.length } }
        match incrementChangesInChangeset cfg st with
        | .error e => .error e
        | .ok st => checkUnresolvedReferences st .node n.id nodeDbId

/-- `_writeWayToTables` (source lines 951-972). -/
def writeWayToTables (st : WriterState) (wayDbId : Int) : WriterState :=
  { st with
    sections :=
      { st.sections with
        currentWays :=
          st.sections.currentWays ++ [⟨wayDbId, st.changesetData.currentChangesetId⟩]
        ways := st.sections.ways ++ [⟨wayDbId, st.changesetData.currentChangesetId⟩] } }

/-- The way-node rows of `_writeWaynodesToTables` (source lines
974-1004): fails `UnresolvedWayNode` on a way-node id that is not in
the node id map; dereferences a null node id map when the way has
way-nodes before any node was written. -/
def buildWaynodeRows (nodeIdMap : Option (List (Int × Int))) (dbWayId : Int) :
    List Int → Nat → Except WriterError (List WayNodeRow)
  | [], _ => .ok []
  | nid :: rest, nodeIndex =>
    match nodeIdMap with
    | none => .error .nullMapDeref
    | some mp =>
      if bmContains mp nid then
        match buildWaynodeRows nodeIdMap dbWayId rest (nodeIndex + 1) with
        | .error e => .error e
        | .ok rows => .ok (⟨dbWayId, bmAt mp nid, nodeIndex⟩ :: rows)
      else .error (.unresolvedWayNode dbWayId nid)

/-- `writePartial(ConstWayPtr)` (source lines 649-686). -/
def writePartialWay (cfg : WriterConfig) (st : WriterState) (w : WayE) :
    Except WriterError WriterState :=
  let st :=
    if st.writeStats.waysWritten = 0 then
      { st with idMappings := { st.idMappings with wayIdMap := some [] } }
    else st
  match st.idMappings.wayIdMap with
  | none => .error .nullMapDeref
  | some mp =>
    if bmContains mp w.id then .error (.updateNotSupported .way w.id)
    else
      let wayDbId := st.idMappings.currentWayId
      let st :=
        { st with
          idMappings :=
            { st.idMappings with
              wayIdMap := some (bmInsert mp w.id wayDbId)
              currentWayId := st.idMappings.currentWayId + 1 } }
      let st := writeWayToTables st wayDbId
      match buildWaynodeRows st.idMappings.nodeIdMap wayDbId w.nodeIds 1 with
      | .error e => .error e
      | .ok wnRows =>
        let st :=
          { st with
            sections :=
              { st.sections with
                currentWayNodes := st.sections.currentWayNodes ++ wnRows
                wayNodes := st.sections.wayNodes ++ wnRows
                currentWayTags := st.sections.currentWayTags ++ tagRows w.tags wayDbId
                wayTags := st.sections.wayTags ++ tagRows w.tags wayDbId }
            writeStats :=
              { st.writeStats with
                waysWritten := st.writeStats.waysWritten + 1
                wayTagsWritten := st.writeStats.wayTagsWritten + w.tags.length
                wayNodesWritten := st.writeStats.wayNodesWritten + w.nodeIds.length } }
        match incrementChangesInChangeset cfg st with
        | .error e => .error e
        | .ok st => checkUnresolvedReferences st .way w.id wayDbId

/-- `_writeRelationToTables` (source lines 1034-1055). -/
def writeRelationToTables (st : WriterState) (relationDbId : Int) : WriterState :=
  { st with
    sections :=
      { st.sections with
        currentRelations :=
          st.sections.currentRelations ++ [⟨relationDbId, st.changesetData.currentChangesetId⟩]
        relations :=
          st.sections.relations ++ [⟨relationDbId, st.changesetData.currentChangesetId⟩] } }

/-- One iteration of the member loop of
`_writeRelationMembersToTables` (source lines 1065-1113): a member
whose id map knows its source id gets its rows written; otherwise the
reference is recorded in `unresolvedRelationRefs` via
`std::map::insert` (which creates the map on first use). -/
def relMemberStep (relationId dbRelationId : Int) (m : RelMember)
    (memberSequenceIndex : Nat) (st : WriterState) : WriterState :=
  let knownElementMap :=
    match m.memberType with
    | .node => st.idMappings.nodeIdMap
    | .way => st.idMappings.wayIdMap
    | .relation => st.idMappings.relationIdMap
  match knownElementMap with
  | some mp =>
    if bmContains mp m.memberId then
      writeRelationMember st dbRelationId m (bmAt mp m.memberId) memberSequenceIndex
    else
      let refs := (st.unresolvedRefs.unresolvedRelationRefs).getD []
      { st with
        unresolvedRefs :=
          { st.unresolvedRefs with
            unresolvedRelationRefs :=
              some (smInsert refs (m.memberType, m.memberId)
                ⟨relationId, dbRelationId, m, memberSequenceIndex⟩) } }
  | none =>
    let refs := (st.unresolvedRefs.unresolvedRelationRefs).getD []
    { st with
      unresolvedRefs :=
        { st.unresolvedRefs with
          unresolvedRelationRefs :=
            some (smInsert refs (m.memberType, m.memberId)
              ⟨relationId, dbRelationId, m, memberSequenceIndex⟩) } }

/-- The member loop of `_writeRelationMembersToTables` (source lines
1057-1114), iterating `relMemberStep` with 1-based sequence indices. -/
def processRelMembers (relationId dbRelationId : Int) :
    List RelMember → Nat → WriterState → WriterState
  | [], _, st => st
  | m :: rest, memberSequenceIndex, st =>
    processRelMembers relationId dbRelationId rest (memberSequenceIndex + 1)
      (relMemberStep relationId dbRelationId m memberSequenceIndex st)

/-- `writePartial(ConstRelationPtr)` (source lines 688-725). -/
def writePartialRelation (cfg : WriterConfig) (st : WriterState) (r : RelationE) :
    Except WriterError WriterState :=
  let st :=
    if st.writeStats.relationsWritten = 0 then
      { st with idMappings := { st.idMappings with relationIdMap := some [] } }
    else st
  match st.idMappings.relationIdMap with
  | none => .error .nullMapDeref
  | some mp =>
    if bmContains mp r.id then .error (.updateNotSupported .relation r.id)
    else
      let relationDbId := st.idMappings.currentRelationId
      let st :=
        { st with
          idMappings :=
            { st.idMappings with
              relationIdMap := some (bmInsert mp r.id relationDbId)
              currentRelationId := st.idMappings.currentRelationId + 1 } }
      let st := writeRelationToTables st relationDbId
      let st := processRelMembers r.id relationDbId r.members 1 st
      let st :=
        { st with
          sections :=
            { st.sections with
              currentRelationTags := st.sections.currentRelationTags ++ tagRows r.tags relationDbId
              relationTags := st.sections.relationTags ++ tagRows r.tags relationDbId }
          writeStats :=
            { st.writeStats with
              relationsWritten := st.writeStats.relationsWritten + 1
              relationTagsWritten := st.writeStats.relationTagsWritten + r.tags.length
              relationMembersWritten :=
                st.writeStats.relationMembersWritten + r.members.length } }
      match incrementChangesInChangeset cfg st with
      | .error e => .error e
      | .ok st => checkUnresolvedReferences st .relation r.id relationDbId

/-- `writePartial` dispatch by element kind. -/
def writePartialElement (cfg : WriterConfig) (st : WriterState) : Element →
    Except WriterError WriterState
  | .node n => writePartialNode cfg st n
  | .way w => writePartialWay cfg st w
  | .relation r => writePartialRelation cfg st r

/-- Stream a list of elements through the writer; the first error
aborts the whole write. -/
def processElements (cfg : WriterConfig) (st : WriterState) :
    List Element → Except WriterError WriterState
  | [] => .ok st
  | e :: rest =>
    match writePartialElement cfg st e with
    | .error err => .error err
    | .ok st => processElements cfg st rest

/-! ## Finalize: sequence updates, online id lock and offset rewrite -/

/-- The four database sequences. -/
inductive SeqKind
  | changesets
  | nodes
  | ways
  | relations
deriving DecidableEq, Repr

/-- `_writeSequenceUpdates` (source lines 1323-1356): one `setval`
statement per sequence; changesets and nodes unconditionally (the
source's `assert`s on their positivity compile away in release
builds), ways and relations only when their value is positive. -/
def writeSequenceUpdates (changesetId nodeId wayId relationId : Int) :
    List (SeqKind × Int) :=
  [(SeqKind.changesets, changesetId), (SeqKind.nodes, nodeId)] ++
    (if wayId > 0 then [(SeqKind.ways, wayId)] else []) ++
    (if relationId > 0 then [(SeqKind.relations, relationId)] else [])

/-- The row-level counterpart of `_updateIdOffsetsInNewFile` applied to
the section contents: each id column gets its table's offset added, per
the branch table of `updateIdOffsetsRecordLine`; in particular the
member id of a `Relation`-kind member row is left unchanged (the
missing branch, source lines 398-411). -/
def updateIdOffsetsSections (off : IdOffsets) (s : OutputSections) : OutputSections where
  changesets :=
    s.changesets.map (List.map (fun r => { r with id := r.id + off.currentChangesetId }))
  currentNodes :=
    s.currentNodes.map (fun r =>
      { r with
        id := r.id + off.currentNodeId
        changesetId := r.changesetId + off.currentChangesetId })
  nodes :=
    s.nodes.map (fun r =>
      { r with
        id := r.id + off.currentNodeId
        changesetId := r.changesetId + off.currentChangesetId })
  currentNodeTags := s.currentNodeTags.map (fun r => { r with elemId := r.elemId + off.currentNodeId })
  nodeTags := s.nodeTags.map (fun r => { r with elemId := r.elemId + off.currentNodeId })
  currentWays :=
    s.currentWays.map (fun r =>
      { r with
        id := r.id + off.currentWayId
        changesetId := r.changesetId + off.currentChangesetId })
  ways :=
    s.ways.map (fun r =>
      { r with
        id := r.id + off.currentWayId
        changesetId := r.changesetId + off.currentChangesetId })
  currentWayNodes :=
    s.currentWayNodes.map (fun r =>
      { r with
        wayId := r.wayId + off.currentWayId
        nodeId := r.nodeId + off.currentNodeId })
  wayNodes :=
    s.wayNodes.map (fun r =>
      { r with
        wayId := r.wayId + off.currentWayId
        nodeId := r.nodeId + off.currentNodeId })
  currentWayTags := s.currentWayTags.map (fun r => { r with elemId := r.elemId + off.currentWayId })
  wayTags := s.wayTags.map (fun r => { r with elemId := r.elemId + off.currentWayId })
  currentRelations :=
    s.currentRelations.map (fun r =>
      { r with
        id := r.id + off.currentRelationId
        changesetId := r.changesetId + off.currentChangesetId })
  relations :=
    s.relations.map (fun r =>
      { r with
        id := r.id + off.currentRelationId
        changesetId := r.changesetId + off.currentChangesetId })
  currentRelationMembers :=
    s.currentRelationMembers.map (fun r =>
      { r with
        relationId := r.relationId + off.currentRelationId
        memberId :=
          match r.memberType with
          | .node => r.memberId + off.currentNodeId
          | .way => r.memberId + off.currentWayId
          | .relation => r.memberId })
  relationMembers :=
    s.relationMembers.map (fun r =>
      { r with
        relationId := r.relationId + off.currentRelationId
        memberId :=
          match r.memberType with
          | .node => r.memberId + off.currentNodeId
          | .way => r.memberId + off.currentWayId
          | .relation => r.memberId })
  currentRelationTags :=
    s.currentRelationTags.map (fun r => { r with elemId := r.elemId + off.currentRelationId })
  relationTags :=
    s.relationTags.map (fun r => { r with elemId := r.elemId + off.currentRelationId })

/-- What a successful finalize produces: the `sequence_updates`
statements (prepended to the script offline; executed against the
database as the id-range lock online), the section rows as they stand
in the final script (online: after the offset rewrite), and the final
writer state. -/
structure FinalOutput where
  sequenceUpdates : List (SeqKind × Int)
  sections : OutputSections
  state : WriterState
deriving DecidableEq

/-- `finalizePartial` (source lines 99-190): return silently when
nothing was written; flush an unfinished changeset; force
`changesetsWritten` to at least 1; offline, write the `setval`
statements with each current id decremented; online, `_lockIds`
(which throws when no nodes were written, source lines 496-505,
before fetching ids or rewriting) then the id-offset rewrite pass. -/
def finalizeBulk (mode : Mode) (db : DbState) (st : WriterState) :
    Except WriterError (Option FinalOutput) :=
  if st.writeStats.nodesWritten = 0 ∧ st.writeStats.waysWritten = 0 ∧
      st.writeStats.relationsWritten = 0 then
    .ok none
  else
    match
      (if st.changesetData.changesInChangeset > 0 then writeChangesetToTable st else .ok st) with
    | .error e => .error e
    | .ok st =>
      let st :=
        if st.changesetData.changesetsWritten = 0 then
          { st with
            changesetData :=
              { st.changesetData with
                changesetsWritten := st.changesetData.changesetsWritten + 1 } }
        else st
      match mode with
      | .offline =>
        let upd :=
          writeSequenceUpdates (st.changesetData.currentChangesetId - 1)
            (st.idMappings.currentNodeId - 1) (st.idMappings.currentWayId - 1)
            (st.idMappings.currentRelationId - 1)
        .ok (some ⟨upd, st.sections, st⟩)
      | .online =>
        if st.writeStats.nodesWritten = 0 then .error .cannotLockIdsNoNodes
        else
          let st := getLatestIdsFromDb .online db st
          let upd :=
            writeSequenceUpdates
              (st.changesetData.currentChangesetId + st.changesetData.changesetsWritten)
              (st.idMappings.currentNodeId + st.writeStats.nodesWritten)
              (st.idMappings.currentWayId + st.writeStats.waysWritten)
              (st.idMappings.currentRelationId + st.writeStats.relationsWritten)
          let off : IdOffsets :=
            ⟨st.changesetData.currentChangesetId, st.idMappings.currentNodeId,
              st.idMappings.currentWayId, st.idMappings.currentRelationId⟩
          .ok (some ⟨upd, updateIdOffsetsSections off st.sections, st⟩)

/-- The (kind, source id) key of a streamed element. -/
def elementKey : Element → ElementKey
  | .node n => (.node, n.id)
  | .way w => (.way, w.id)
  | .relation r => (.relation, r.id)

/-- A (kind, source id) already recorded by the writer: the kind's
counter is nonzero and the source id is a key of the kind's id map. -/
def keyPresent (st : WriterState) : ElementKey → Prop
  | (.node, i) =>
    st.writeStats.nodesWritten ≠ 0 ∧ i ∈ (st.idMappings.nodeIdMap.getD []).map Prod.fst
  | (.way, i) =>
    st.writeStats.waysWritten ≠ 0 ∧ i ∈ (st.idMappings.wayIdMap.getD []).map Prod.fst
  | (.relation, i) =>
    st.writeStats.relationsWritten ≠ 0 ∧ i ∈ (st.idMappings.relationIdMap.getD []).map Prod.fst

/-! ## Invariants used by the universal claims -/

/-- The sum of the `num_changes` column over the flushed changeset
rows. -/
def csSum (st : WriterState) : Nat :=
  ((st.sections.changesets.getD []).map ChangesetRow.numChanges).sum

/-- The total number of nodes, ways and relations written. -/
def changesTotal (st : WriterState) : Nat :=
  st.writeStats.nodesWritten + st.writeStats.waysWritten + st.writeStats.relationsWritten

/-- The changeset-accumulator invariant: flushed changes plus the open
counter equal the elements written; every flushed row is bounded by the
changeset size; the open counter stays strictly below it; and the
`changesets` section is empty while `currentChangesetId` is still 1. -/
def ChangesInv (maxSize : Nat) (st : WriterState) : Prop :=
  csSum st + st.changesetData.changesInChangeset = changesTotal st ∧
  (∀ r ∈ st.sections.changesets.getD [], r.numChanges ≤ maxSize) ∧
  (0 < maxSize → st.changesetData.changesInChangeset < maxSize) ∧
  (st.changesetData.currentChangesetId = 1 → st.sections.changesets.getD [] = []) ∧
  (1 ≤ st.changesetData.currentChangesetId ∨ st.sections.changesets = none)

/-- The state invariant of a pure node stream: `seen` source ids have
been written, db ids are dense from `start`, the node rows carry
exactly those ids in order, and no unresolved references exist. -/
def NodeInv (userId start : Int) (seen : List Int) (st : WriterState) : Prop :=
  st.writeStats.nodesWritten = seen.length ∧
  st.idMappings.currentNodeId = start + seen.length ∧
  ((st.idMappings.nodeIdMap.getD []).map Prod.fst = seen) ∧
  (seen ≠ [] → st.idMappings.nodeIdMap ≠ none) ∧
  st.sections.currentNodes.map NodeRow.id =
    (List.range seen.length).map (fun i => start + (i : Int)) ∧
  st.sections.nodes.map NodeRow.id =
    (List.range seen.length).map (fun i => start + (i : Int)) ∧
  st.unresolvedRefs.unresolvedRelationRefs = none ∧
  st.unresolvedRefs.unresolvedWaynodeKeys = none ∧
  st.changesetData.changesetUserId = userId ∧
  (st.changesetData.currentChangesetId = 1 ∨ st.sections.changesets ≠ none)

/-! ## Concrete inputs used by counterexamples and witnesses -/

/-- A configuration with user id 17 and changeset size 1000. -/
def exCfg : WriterConfig := ⟨17, 1000⟩

/-- A fresh database: every sequence at 1. -/
def exDb : DbState := ⟨1, 1, 1, 1⟩

/-- Two relations referencing the same not-yet-seen way, then that
way (scenario for the forward-reference claim). -/
def c2Elems : List Element :=
  [Element.relation ⟨-100, [⟨ElementType.way, -50, "outer"⟩], []⟩,
   Element.relation ⟨-101, [⟨ElementType.way, -50, "outer"⟩], []⟩,
   Element.way ⟨-50, [], []⟩]

/-- The writer state after streaming `c2Elems` (the run succeeds). -/
def c2Run : Except WriterError WriterState :=
  processElements exCfg (openWriter Mode.online exDb exCfg) c2Elems

/-- A node at the origin. -/
def nodeOrigin : NodeE := ⟨-1, 0, 0, []⟩

/-- An offline run writing a single node and finalizing. -/
def c5Run : Except WriterError (Option FinalOutput) :=
  match processElements exCfg (openWriter Mode.offline exDb exCfg) [Element.node nodeOrigin] with
  | .ok st => finalizeBulk Mode.offline exDb st
  | .error e => .error e

/-- A node at latitude 500 degrees (far outside the valid range). -/
def nodeLat500 : NodeE := ⟨-1, 500, 0, []⟩

/-- Writing the latitude-500 node into a fresh online writer. -/
def c8Run : Except WriterError WriterState :=
  writePartialNode exCfg (openWriter Mode.online exDb exCfg) nodeLat500

/-- Example section contents for the assembler: byte-order mark,
a one-row `changesets` section and a one-row `current_nodes` section. -/
def c4Sections : String → Option (List String) := fun n =>
  if n = "byte_order_mark" then some [""]
  else if n = "changesets" then
    some ["COPY changesets (id, user_id, created_at, min_lat, max_lat, min_lon, max_lon, closed_at, num_changes) FROM stdin;",
          "1\t17\t2016-01-01 00:00:00.000\t0\t0\t0\t0\t2016-01-01 00:00:00.000\t1"]
  else if n = "current_nodes" then
    some ["COPY current_nodes (id, latitude, longitude, changeset_id, visible, \"timestamp\", tile, version) FROM stdin;",
          "1\t0\t0\t1\tt\t2016-01-01 00:00:00.000\t0\t1"]
  else none

/-- A writer state that has one node already recorded in the node id
map (used to exercise the duplicate check). -/
def c9State : WriterState :=
  { initState exCfg with
    writeStats := { (initState exCfg).writeStats with nodesWritten := 1 }
    idMappings :=
      { (initState exCfg).idMappings with
        currentNodeId := 2
        nodeIdMap := some [(-1, 1)] } }

/-- A writer state with one way written and no nodes (used to exercise
the online finalize guard). -/
def c10State : WriterState :=
  { initState exCfg with
    writeStats := { (initState exCfg).writeStats with waysWritten := 1 } }

/-- The state after streaming one node offline (the run succeeds). -/
def c6RunState : WriterState :=
  (processElements exCfg (openWriter Mode.offline exDb exCfg)
    [Element.node nodeOrigin]).toOption.getD (initState exCfg)

/-- The finalize output of that offline single-node run. -/
def c6Out : FinalOutput :=
  ((finalizeBulk Mode.offline exDb c6RunState).toOption.getD none).getD
    ⟨[], (initState exCfg).sections, initState exCfg⟩

/-- The writer state after the per-node pipeline of
`writePartial(ConstNodePtr)` up to (not including)
`_incrementChangesInChangeset`: id mapping inserted, current id
advanced, node and tag rows appended, stats counted. -/
def nodeStaged (st : WriterState) (n : NodeE) (mp : List (Int × Int)) : WriterState :=
  let nodeDbId := st.idMappings.currentNodeId
  let st1 :=
    { st with
      idMappings :=
        { st.idMappings with
          nodeIdMap := some (bmInsert mp n.id nodeDbId)
          currentNodeId := st.idMappings.currentNodeId + 1 } }
  let row : NodeRow :=
    ⟨nodeDbId, asInt32 (convertDegreesToNanodegrees n.lat),
      asInt32 (convertDegreesToNanodegrees n.lon), st.changesetData.currentChangesetId⟩
  { st1 with
    sections :=
      { st1.sections with
        currentNodes := st1.sections.currentNodes ++ [row]
        nodes := st1.sections.nodes ++ [row]
        currentNodeTags := st1.sections.currentNodeTags ++ tagRows n.tags nodeDbId
        nodeTags := st1.sections.nodeTags ++ tagRows n.tags nodeDbId }
    writeStats :=
      { st1.writeStats with
        nodesWritten := st1.writeStats.nodesWritten + 1
        nodeTagsWritten := st1.writeStats.nodeTagsWritten + n.tags.length } }

/-! # Theorems

## Encoder (claim C7) -/

theorem replaceQChar_append (c : Char) (r : List Char) (a b : List Char) :
    replaceQChar c r (a ++ b) = replaceQChar c r a ++ replaceQChar c r b := by
  simp [replaceQChar]

theorem escapeCopyToData_append (a b : List Char) :
    escapeCopyToData (a ++ b) = escapeCopyToData a ++ escapeCopyToData b := by
  simp [escapeCopyToData, replaceQChar_append]

theorem escapeCopyToData_singleton (c : Char) : escapeCopyToData [c] = escapeChar c := by
  by_cases h1 : c = '\\'
  · subst h1; decide
  by_cases h2 : c = Char.ofNat 8
  · subst h2; decide
  by_cases h3 : c = Char.ofNat 9
  · subst h3; decide
  by_cases h4 : c = Char.ofNat 10
  · subst h4; decide
  by_cases h5 : c = Char.ofNat 11
  · subst h5; decide
  by_cases h6 : c = Char.ofNat 12
  · subst h6; decide
  by_cases h7 : c = Char.ofNat 13
  · subst h7; decide
  · simp [escapeCopyToData, replaceQChar, escapeChar, h1, h2, h3, h4, h5, h6, h7]

/-- The seven sequential replacements act independently on each input
character: no later pattern occurs in an earlier replacement string. -/
theorem escapeCopyToData_eq_flatMap (s : List Char) :
    escapeCopyToData s = s.flatMap escapeChar := by
  induction s with
  | nil => rfl
  | cons x xs ih =>
    have hx : x :: xs = [x] ++ xs := rfl
    rw [hx, escapeCopyToData_append, ih, escapeCopyToData_singleton]
    simp

theorem escapeChar_ne_nil (c : Char) : escapeChar c ≠ [] := by
  unfold escapeChar
  split_ifs <;> simp

theorem escapeChar_eq {c : Char} (h : c ≠ '\\') :
    escapeChar c = match specialLetter c with
      | some l => ['\\', l]
      | none => [c] := by
  unfold escapeChar specialLetter
  split_ifs <;> simp_all

theorem specialLetter_cases {x l : Char} (hx : specialLetter x = some l) :
    (x = Char.ofNat 8 ∧ l = 'b') ∨ (x = Char.ofNat 9 ∧ l = 't') ∨
    (x = Char.ofNat 10 ∧ l = 'n') ∨ (x = Char.ofNat 11 ∧ l = 'v') ∨
    (x = Char.ofNat 12 ∧ l = 'f') ∨ (x = Char.ofNat 13 ∧ l = 'r') := by
  unfold specialLetter at hx
  split_ifs at hx <;> simp at hx <;> subst hx <;> simp_all

theorem specialLetter_inj {x y l : Char} (hx : specialLetter x = some l)
    (hy : specialLetter y = some l) : x = y := by
  rcases specialLetter_cases hx with ⟨rfl, rfl⟩|⟨rfl, rfl⟩|⟨rfl, rfl⟩|⟨rfl, rfl⟩|⟨rfl, rfl⟩|⟨rfl, rfl⟩ <;>
    rcases specialLetter_cases hy with ⟨rfl, h⟩|⟨rfl, h⟩|⟨rfl, h⟩|⟨rfl, h⟩|⟨rfl, h⟩|⟨rfl, h⟩ <;>
    simp_all

/-- The images of two non-backslash characters under the escape form a
prefix code: equal concatenations force equal heads. -/
theorem escapeChar_head_cancel {x y : Char} {u v : List Char} (hx : x ≠ '\\') (hy : y ≠ '\\')
    (h : escapeChar x ++ u = escapeChar y ++ v) : x = y ∧ u = v := by
  rw [escapeChar_eq hx, escapeChar_eq hy] at h
  cases hsx : specialLetter x with
  | none =>
    cases hsy : specialLetter y with
    | none =>
      rw [hsx, hsy] at h
      simpa using h
    | some ly =>
      rw [hsx, hsy] at h
      simp at h
      exact absurd h.1 hx
  | some lx =>
    cases hsy : specialLetter y with
    | none =>
      rw [hsx, hsy] at h
      simp at h
      exact absurd h.1.symm hy
    | some ly =>
      rw [hsx, hsy] at h
      simp at h
      obtain ⟨hl, huv⟩ := h
      subst hl
      exact ⟨specialLetter_inj hsx hsy, huv⟩

theorem escape_flatMap_inj : ∀ (a b : List Char), '\\' ∉ a → '\\' ∉ b →
    a.flatMap escapeChar = b.flatMap escapeChar → a = b := by
  intro a
  induction a with
  | nil =>
    intro b _ _ h
    cases b with
    | nil => rfl
    | cons y ys =>
      exfalso
      rw [List.flatMap_cons] at h
      exact escapeChar_ne_nil y (List.append_eq_nil.mp h.symm).1
  | cons x xs ih =>
    intro b hxa hb h
    cases b with
    | nil =>
      exfalso
      rw [List.flatMap_cons] at h
      exact escapeChar_ne_nil x (List.append_eq_nil.mp h).1
    | cons y ys =>
      rw [List.flatMap_cons, List.flatMap_cons] at h
      have hx : x ≠ '\\' := fun he => hxa (by simp [he])
      have hy : y ≠ '\\' := fun he => hb (by simp [he])
      obtain ⟨hxy, htl⟩ := escapeChar_head_cancel hx hy h
      have hxs : '\\' ∉ xs := fun hm => hxa (List.mem_cons_of_mem _ hm)
      have hys : '\\' ∉ ys := fun hm => hb (List.mem_cons_of_mem _ hm)
      rw [hxy, ih ys hxs hys htl]

/-- C7: `_escapeCopyToData` applies backslash-doubling first and then
the six control-character escapes in source order, which amounts to the
per-character map `escapeChar`; consequently the escape is a morphism
for concatenation, and it is injective on strings that contain no
backslash. -/
theorem claim_c7_escape :
    (∀ s : List Char, escapeCopyToData s = s.flatMap escapeChar) ∧
    (∀ a b : List Char, escapeCopyToData (a ++ b) = escapeCopyToData a ++ escapeCopyToData b) ∧
    (∀ a b : List Char, '\\' ∉ a → '\\' ∉ b →
      escapeCopyToData a = escapeCopyToData b → a = b) :=
  ⟨escapeCopyToData_eq_flatMap, escapeCopyToData_append, fun a b ha hb h =>
    escape_flatMap_inj a b ha hb
      ((escapeCopyToData_eq_flatMap a).symm.trans (h.trans (escapeCopyToData_eq_flatMap b)))⟩

/-- Witness for C7: the injectivity part applied to the backslash-free
string "x‹tab›". -/
theorem claim_c7_escape_witness :
    ('\\' ∉ ['x', Char.ofNat 9]) ∧
    (escapeCopyToData ['x', Char.ofNat 9] = ['x', '\\', 't']) ∧
    (['x', Char.ofNat 9] = ['x', Char.ofNat 9]) :=
  ⟨by decide, by decide,
    claim_c7_escape.2.2 _ _ (by decide) (by decide) rfl⟩

/-! ## OffsetRewriter member-kind dispatch (claim C1) -/

/-- C1 (code bug): in the rewrite of a `current_relation_members` or
`relation_members` line, the member id at cell 2 gets the node base for
a "Node" member and the way base for a "Way" member, but a "Relation"
member's id is left without any base added — the source has no branch
for it (lines 398-411), though the relation id at cell 0 does get the
relation base.  Offsets here: changesets 10, nodes 100, ways 200,
relations 300. -/
theorem claim_c1_relation_member_base_missing :
    updateIdOffsetsRecordLine ⟨10, 100, 200, 300⟩ "current_relation_members"
      ["1", "Relation", "1", "outer", "1"] = ["301", "Relation", "1", "outer", "1"] ∧
    updateIdOffsetsRecordLine ⟨10, 100, 200, 300⟩ "relation_members"
      ["1", "Relation", "1", "outer", "1", "1"] = ["301", "Relation", "1", "outer", "1", "1"] ∧
    updateIdOffsetsRecordLine ⟨10, 100, 200, 300⟩ "current_relation_members"
      ["1", "Node", "1", "outer", "1"] = ["301", "Node", "101", "outer", "1"] ∧
    updateIdOffsetsRecordLine ⟨10, 100, 200, 300⟩ "current_relation_members"
      ["1", "Way", "1", "outer", "1"] = ["301", "Way", "201", "outer", "1"] := by
  decide

/-! ## Forward references (claim C2) -/

/-- C2 (code bug): two relations (assigned local ids 1 and 2) each
reference the same not-yet-seen way; after the way arrives, only the
first relation's member row exists in `current_relation_members` and
`relation_members`, the second reference having been silently dropped
by `std::map::insert`, and no pending entry remains. -/
theorem claim_c2_second_pending_reference_dropped :
    (match c2Run with
      | .ok st => some (st.sections.currentRelations.map RelationRow.id)
      | .error _ => none) = some [1, 2] ∧
    (match c2Run with
      | .ok st => some st.sections.currentRelationMembers
      | .error _ => none) = some [⟨1, ElementType.way, 1, "outer", 1⟩] ∧
    (match c2Run with
      | .ok st => some st.sections.relationMembers
      | .error _ => none) = some [⟨1, ElementType.way, 1, "outer", 1⟩] ∧
    (match c2Run with
      | .ok st => some ((st.unresolvedRefs.unresolvedRelationRefs).getD []).length
      | .error _ => none) = some 0 := by
  refine ⟨by decide, by decide, by decide, by decide⟩

/-! ## Offline sequence updates (claim C5) -/

/-- C5 (code bug): an offline run over one node (fresh database, all
sequences at 1) flushes exactly one changeset row with id 1 and
num_changes 1, so the maximum changeset id used is
`start + count - 1 = 1`; yet the emitted `setval` for the changesets
sequence is 0 (`currentChangesetId - 1`, which also violates the
source's own `assert(changesetId > 0)`).  The node `setval` is the
correct 1. -/
theorem claim_c5_changesets_setval_off_by_one :
    (match c5Run with
      | .ok (some out) =>
        some (out.sequenceUpdates,
          (out.sections.changesets.getD []).map (fun r => (r.id, r.numChanges)))
      | _ => none) =
    some ([(SeqKind.changesets, 0), (SeqKind.nodes, 1)], [((1 : Int), 1)]) := by
  decide

/-! ## Coordinate validation (claim C8) -/

/-- C8 (code bug): `round(500 * 1e7) = 5000000000` lies far outside
`[-9e8, 9e8]`, so the claim requires `InvalidLatitude`; but the
`unsigned int` return type of `_convertDegreesToNanodegrees` wraps the
value to 705032704, the guard passes, and the node row is written with
that corrupted latitude. -/
theorem claim_c8_latitude_wraps_past_check :
    roundHalfAway ((500 : ℚ).num * COORDINATE_SCALE) (500 : ℚ).den = 5000000000 ∧
    asInt32 (convertDegreesToNanodegrees 500) = 705032704 ∧
    (match c8Run with
      | .ok st => some st.sections.currentNodes
      | .error _ => none) = some [⟨1, 705032704, 0, 1⟩] := by
  decide

/-! ## Online finalize with no nodes (claim C10) -/

/-- Counterexample to C10 as stated: the empty stream contains no
nodes, yet online finalize does not fail — it returns silently
(`.ok none`), because the no-data early return precedes the `_lockIds`
guard. -/
theorem claim_c10_counterexample_empty_stream :
    finalizeBulk Mode.online exDb (openWriter Mode.online exDb exCfg) = .ok none := by
  decide

/-- Success inversion for `_writeChangesetToTable`: a successful flush
means the user id was valid and the section was reachable (created at
changeset id 1 or already present), and the result appends exactly one
row and zeroes the open counter. -/
theorem writeChangesetToTable_ok_inv {st st' : WriterState}
    (h : writeChangesetToTable st = .ok st') :
    st.changesetData.changesetUserId ≠ -1 ∧
    (st.changesetData.currentChangesetId = 1 ∨ st.sections.changesets ≠ none) ∧
    st' = { st with
      sections :=
        { st.sections with
          changesets :=
            some ((if st.changesetData.currentChangesetId = 1 then []
              else st.sections.changesets.getD []) ++
              [⟨st.changesetData.currentChangesetId, st.changesetData.changesetUserId,
                st.changesetData.changesInChangeset⟩]) }
      changesetData := { st.changesetData with changesInChangeset := 0 } } := by
  unfold writeChangesetToTable at h
  by_cases hu : st.changesetData.changesetUserId = -1
  · rw [if_pos hu] at h
    exact absurd h (by simp)
  · rw [if_neg hu] at h
    by_cases hc : st.changesetData.currentChangesetId = 1
    · simp only [if_pos hc] at h
      refine ⟨hu, Or.inl hc, ?_⟩
      simp only [if_pos hc]
      simpa using h.symm
    · simp only [if_neg hc] at h
      cases hcs : st.sections.changesets with
      | none =>
        rw [hcs] at h
        exact absurd h (by simp)
      | some rows =>
        rw [hcs] at h
        refine ⟨hu, Or.inr (by simp [hcs]), ?_⟩
        simp only [if_neg hc, hcs]
        simpa using h.symm

/-- C10 amended: online finalize fails whenever nothing was written for
nodes but ways or relations were, before any id range is reserved or
any rewritten script produced (an error result carries no output). -/
theorem claim_c10_no_nodes_finalize_fails (db : DbState) (st : WriterState)
    (hn : st.writeStats.nodesWritten = 0)
    (hw : st.writeStats.waysWritten ≠ 0 ∨ st.writeStats.relationsWritten ≠ 0) :
    ∃ e, finalizeBulk Mode.online db st = .error e := by
  unfold finalizeBulk
  have hcond : ¬(st.writeStats.nodesWritten = 0 ∧ st.writeStats.waysWritten = 0 ∧
      st.writeStats.relationsWritten = 0) := by
    rcases hw with h|h
    · exact fun hh => h hh.2.1
    · exact fun hh => h hh.2.2
  rw [if_neg hcond]
  cases hfl : (if st.changesetData.changesInChangeset > 0 then writeChangesetToTable st
      else .ok st) with
  | error e => exact ⟨e, rfl⟩
  | ok st2 =>
    have hst2 : st2.writeStats.nodesWritten = 0 := by
      by_cases hcp : st.changesetData.changesInChangeset > 0
      · rw [if_pos hcp] at hfl
        obtain ⟨-, -, rfl⟩ := writeChangesetToTable_ok_inv hfl
        exact hn
      · rw [if_neg hcp] at hfl
        cases hfl
        exact hn
    refine ⟨.cannotLockIdsNoNodes, ?_⟩
    by_cases hw0 : st2.changesetData.changesetsWritten = 0 <;>
      simp [hw0, hst2]

/-- Witness for the amended C10 at a state with one way and no
nodes. -/
theorem claim_c10_no_nodes_finalize_fails_witness :
    (c10State.writeStats.nodesWritten = 0) ∧
    (c10State.writeStats.waysWritten ≠ 0 ∨ c10State.writeStats.relationsWritten ≠ 0) ∧
    (∃ e, finalizeBulk Mode.online exDb c10State = .error e) :=
  ⟨rfl, Or.inl (by decide),
    claim_c10_no_nodes_finalize_fails exDb c10State rfl (Or.inl (by decide))⟩

/-! ## Success inversions of the per-element helpers -/

/-- A successful `_writeNodeToTables` appends exactly the two node rows
and changes nothing else. -/
theorem writeNodeToTables_ok_inv {st : WriterState} {n : NodeE} {dbid : Int}
    {st' : WriterState} (h : writeNodeToTables st n dbid = .ok st') :
    st' = { st with
      sections :=
        { st.sections with
          currentNodes := st.sections.currentNodes ++
            [⟨dbid, asInt32 (convertDegreesToNanodegrees n.lat),
              asInt32 (convertDegreesToNanodegrees n.lon), st.changesetData.currentChangesetId⟩]
          nodes := st.sections.nodes ++
            [⟨dbid, asInt32 (convertDegreesToNanodegrees n.lat),
              asInt32 (convertDegreesToNanodegrees n.lon),
              st.changesetData.currentChangesetId⟩] } } := by
  unfold writeNodeToTables at h
  dsimp only at h
  split_ifs at h <;> injection h with h <;> exact h.symm

/-- A successful `_incrementChangesInChangeset` touches only the
changeset data and the `changesets` section. -/
theorem incrementChangesInChangeset_ok_fields {cfg : WriterConfig} {st st' : WriterState}
    (h : incrementChangesInChangeset cfg st = .ok st') :
    st'.writeStats = st.writeStats ∧
    st'.idMappings = st.idMappings ∧
    st'.unresolvedRefs = st.unresolvedRefs ∧
    st'.sections = { st.sections with changesets := st'.sections.changesets } ∧
    st'.changesetData.changesetUserId = st.changesetData.changesetUserId := by
  unfold incrementChangesInChangeset at h
  dsimp only at h
  split_ifs at h with hm
  · cases hw : writeChangesetToTable
        { st with
          changesetData :=
            { st.changesetData with
              changesInChangeset := st.changesetData.changesInChangeset + 1 } } with
    | error e => rw [hw] at h; injection h
    | ok st2 =>
      rw [hw] at h
      obtain ⟨-, -, rfl⟩ := writeChangesetToTable_ok_inv hw
      injection h with h
      subst h
      simp
  · injection h with h
    subst h
    simp

/-- A successful `_checkUnresolvedReferences` touches at most the
relation-member sections, the member counter and the pending map. -/
theorem checkUnresolvedReferences_ok_inv {st : WriterState} {t : ElementType}
    {sid dbid : Int} {st' : WriterState}
    (h : checkUnresolvedReferences st t sid dbid = .ok st') :
    st'.idMappings = st.idMappings ∧
    st'.changesetData = st.changesetData ∧
    st'.writeStats.nodesWritten = st.writeStats.nodesWritten ∧
    st'.writeStats.waysWritten = st.writeStats.waysWritten ∧
    st'.writeStats.relationsWritten = st.writeStats.relationsWritten ∧
    st'.sections.changesets = st.sections.changesets ∧
    st'.sections.currentNodes = st.sections.currentNodes ∧
    st'.sections.nodes = st.sections.nodes ∧
    st'.unresolvedRefs.unresolvedWaynodeKeys = st.unresolvedRefs.unresolvedWaynodeKeys := by
  unfold checkUnresolvedReferences writeRelationMember at h
  dsimp only at h
  cases hr : st.unresolvedRefs.unresolvedRelationRefs with
  | none =>
    rw [hr] at h
    dsimp only at h
    by_cases ht : t = ElementType.node
    · subst ht
      rw [if_pos rfl] at h
      cases hk : st.unresolvedRefs.unresolvedWaynodeKeys with
      | none =>
        rw [hk] at h
        have hh := Except.ok.inj h
        subst hh
        simp [hk]
      | some keys =>
        rw [hk] at h
        dsimp only at h
        split_ifs at h
        all_goals
          have hh := Except.ok.inj h
          subst hh
          simp [hk]
    · rw [if_neg ht] at h
      have hh := Except.ok.inj h
      subst hh
      simp
  | some m =>
    rw [hr] at h
    dsimp only at h
    cases hf : smFind m (t, sid) with
    | none =>
      rw [hf] at h
      dsimp only at h
      by_cases ht : t = ElementType.node
      · subst ht
        rw [if_pos rfl] at h
        cases hk : st.unresolvedRefs.unresolvedWaynodeKeys with
        | none =>
          rw [hk] at h
          have hh := Except.ok.inj h
          subst hh
          simp [hk]
        | some keys =>
          rw [hk] at h
          dsimp only at h
          split_ifs at h
          all_goals
            have hh := Except.ok.inj h
            subst hh
            simp [hk]
      · rw [if_neg ht] at h
        have hh := Except.ok.inj h
        subst hh
        simp
    | some ref =>
      rw [hf] at h
      dsimp only at h
      by_cases ht : t = ElementType.node
      · subst ht
        rw [if_pos rfl] at h
        cases hk : st.unresolvedRefs.unresolvedWaynodeKeys with
        | none =>
          rw [hk] at h
          have hh := Except.ok.inj h
          subst hh
          simp [hk]
        | some keys =>
          rw [hk] at h
          dsimp only at h
          split_ifs at h
          all_goals
            have hh := Except.ok.inj h
            subst hh
            simp [hk]
      · rw [if_neg ht] at h
        have hh := Except.ok.inj h
        subst hh
        simp

end Hoot

namespace Hoot

theorem bmContains_iff {mp : List (Int × Int)} {k : Int} :
    bmContains mp k = true ↔ k ∈ mp.map Prod.fst := by
  simp [bmContains, List.any_eq_true, List.mem_map]

theorem writePartialNode_ok_inv {cfg : WriterConfig} {st : WriterState} {n : NodeE}
    {st' : WriterState} (h : writePartialNode cfg st n = .ok st') :
    (∃ stm stm',
      incrementChangesInChangeset cfg stm = .ok stm' ∧
      stm.sections.changesets = st.sections.changesets ∧
      stm.changesetData = st.changesetData ∧
      st'.sections.changesets = stm'.sections.changesets ∧
      st'.changesetData = stm'.changesetData) ∧
    st'.writeStats.nodesWritten = st.writeStats.nodesWritten + 1 ∧
    st'.writeStats.waysWritten = st.writeStats.waysWritten ∧
    st'.writeStats.relationsWritten = st.writeStats.relationsWritten ∧
    st'.idMappings.wayIdMap = st.idMappings.wayIdMap ∧
    st'.idMappings.relationIdMap = st.idMappings.relationIdMap ∧
    n.id ∈ (st'.idMappings.nodeIdMap.getD []).map Prod.fst ∧
    (st.writeStats.nodesWritten ≠ 0 →
      ∀ i ∈ (st.idMappings.nodeIdMap.getD []).map Prod.fst,
        i ∈ (st'.idMappings.nodeIdMap.getD []).map Prod.fst) ∧
    (st.writeStats.nodesWritten ≠ 0 →
      n.id ∉ (st.idMappings.nodeIdMap.getD []).map Prod.fst) := by
  unfold writePartialNode at h
  by_cases h0 : st.writeStats.nodesWritten = 0
  · rw [if_pos h0] at h
    dsimp only at h
    rw [if_neg (by simp [bmContains])] at h
    split at h
    · exact absurd h (by simp)
    rename_i st1 hw
    split at h
    · exact absurd h (by simp)
    rename_i st2 hi
    have hw' := writeNodeToTables_ok_inv hw
    subst hw'
    obtain ⟨hif1, hif2, hif3, hif4, hif5⟩ := incrementChangesInChangeset_ok_fields hi
    obtain ⟨hcu1, hcu2, hcu3, hcu4, hcu5, hcu6, hcu7, hcu8, hcu9⟩ :=
      checkUnresolvedReferences_ok_inv h
    refine ⟨⟨_, st2, hi, by simp, by simp, hcu6, hcu2⟩, ?_, ?_, ?_, ?_, ?_, ?_, ?_, ?_⟩
    · simp [hcu3, hif1, h0]
    · simp [hcu4, hif1]
    · simp [hcu5, hif1]
    · simp [hcu1, hif2]
    · simp [hcu1, hif2]
    · simp [hcu1, hif2, bmInsert]
    · exact fun hne => absurd h0 hne
    · exact fun hne => absurd h0 hne
  · rw [if_neg h0] at h
    dsimp only at h
    cases hmp : st.idMappings.nodeIdMap with
    | none => rw [hmp] at h; exact absurd h (by simp)
    | some mp =>
      rw [hmp] at h
      dsimp only at h
      by_cases hdup : bmContains mp n.id = true
      · rw [if_pos hdup] at h
        exact absurd h (by simp)
      rw [if_neg hdup] at h
      split at h
      · exact absurd h (by simp)
      rename_i st1 hw
      split at h
      · exact absurd h (by simp)
      rename_i st2 hi
      have hw' := writeNodeToTables_ok_inv hw
      subst hw'
      obtain ⟨hif1, hif2, hif3, hif4, hif5⟩ := incrementChangesInChangeset_ok_fields hi
      obtain ⟨hcu1, hcu2, hcu3, hcu4, hcu5, hcu6, hcu7, hcu8, hcu9⟩ :=
        checkUnresolvedReferences_ok_inv h
      refine ⟨⟨_, st2, hi, by simp, by simp, hcu6, hcu2⟩, ?_, ?_, ?_, ?_, ?_, ?_, ?_, ?_⟩
      · simp [hcu3, hif1]
      · simp [hcu4, hif1]
      · simp [hcu5, hif1]
      · simp [hcu1, hif2]
      · simp [hcu1, hif2]
      · simp [hcu1, hif2, bmInsert]
      · intro _ i hi2
        simp only [hmp, Option.getD_some] at hi2
        simp [hcu1, hif2, bmInsert, hi2]
      · intro _
        simp only [Option.getD_some]
        exact fun hmem => hdup (bmContains_iff.mpr hmem)

end Hoot

namespace Hoot

theorem relMemberStep_fields (relationId dbRelationId : Int) (m : RelMember)
    (seq : Nat) (st : WriterState) :
    (relMemberStep relationId dbRelationId m seq st).idMappings = st.idMappings ∧
    (relMemberStep relationId dbRelationId m seq st).changesetData = st.changesetData ∧
    (relMemberStep relationId dbRelationId m seq st).sections.changesets =
      st.sections.changesets ∧
    (relMemberStep relationId dbRelationId m seq st).writeStats.nodesWritten =
      st.writeStats.nodesWritten ∧
    (relMemberStep relationId dbRelationId m seq st).writeStats.waysWritten =
      st.writeStats.waysWritten ∧
    (relMemberStep relationId dbRelationId m seq st).writeStats.relationsWritten =
      st.writeStats.relationsWritten ∧
    (relMemberStep relationId dbRelationId m seq st).sections.currentNodes =
      st.sections.currentNodes ∧
    (relMemberStep relationId dbRelationId m seq st).sections.nodes = st.sections.nodes := by
  unfold relMemberStep writeRelationMember
  dsimp only
  cases m.memberType <;> dsimp only
  · cases st.idMappings.nodeIdMap <;> dsimp only
    · simp
    · split_ifs <;> simp
  · cases st.idMappings.wayIdMap <;> dsimp only
    · simp
    · split_ifs <;> simp
  · cases st.idMappings.relationIdMap <;> dsimp only
    · simp
    · split_ifs <;> simp

theorem processRelMembers_fields (relationId dbRelationId : Int) :
    ∀ (members : List RelMember) (seq : Nat) (st : WriterState),
    (processRelMembers relationId dbRelationId members seq st).idMappings = st.idMappings ∧
    (processRelMembers relationId dbRelationId members seq st).changesetData =
      st.changesetData ∧
    (processRelMembers relationId dbRelationId members seq st).sections.changesets =
      st.sections.changesets ∧
    (processRelMembers relationId dbRelationId members seq st).writeStats.nodesWritten =
      st.writeStats.nodesWritten ∧
    (processRelMembers relationId dbRelationId members seq st).writeStats.waysWritten =
      st.writeStats.waysWritten ∧
    (processRelMembers relationId dbRelationId members seq st).writeStats.relationsWritten =
      st.writeStats.relationsWritten ∧
    (processRelMembers relationId dbRelationId members seq st).sections.currentNodes =
      st.sections.currentNodes ∧
    (processRelMembers relationId dbRelationId members seq st).sections.nodes =
      st.sections.nodes := by
  intro members
  induction members with
  | nil => intro seq st; simp [processRelMembers]
  | cons m rest ih =>
    intro seq st
    obtain ⟨hs1, hs2, hs3, hs4, hs5, hs6, hs7, hs8⟩ :=
      relMemberStep_fields relationId dbRelationId m seq st
    obtain ⟨hr1, hr2, hr3, hr4, hr5, hr6, hr7, hr8⟩ :=
      ih (seq + 1) (relMemberStep relationId dbRelationId m seq st)
    unfold processRelMembers
    exact ⟨hr1.trans hs1, hr2.trans hs2, hr3.trans hs3, hr4.trans hs4,
      hr5.trans hs5, hr6.trans hs6, hr7.trans hs7, hr8.trans hs8⟩

theorem processRelMembers_idMappings (a b : Int) (members : List RelMember) (seq : Nat)
    (st : WriterState) :
    (processRelMembers a b members seq st).idMappings = st.idMappings :=
  (processRelMembers_fields a b members seq st).1

theorem processRelMembers_changesetData (a b : Int) (members : List RelMember) (seq : Nat)
    (st : WriterState) :
    (processRelMembers a b members seq st).changesetData = st.changesetData :=
  (processRelMembers_fields a b members seq st).2.1

theorem processRelMembers_changesets (a b : Int) (members : List RelMember) (seq : Nat)
    (st : WriterState) :
    (processRelMembers a b members seq st).sections.changesets = st.sections.changesets :=
  (processRelMembers_fields a b members seq st).2.2.1

theorem processRelMembers_nodesWritten (a b : Int) (members : List RelMember) (seq : Nat)
    (st : WriterState) :
    (processRelMembers a b members seq st).writeStats.nodesWritten =
      st.writeStats.nodesWritten :=
  (processRelMembers_fields a b members seq st).2.2.2.1

theorem processRelMembers_waysWritten (a b : Int) (members : List RelMember) (seq : Nat)
    (st : WriterState) :
    (processRelMembers a b members seq st).writeStats.waysWritten =
      st.writeStats.waysWritten :=
  (processRelMembers_fields a b members seq st).2.2.2.2.1

theorem processRelMembers_relationsWritten (a b : Int) (members : List RelMember) (seq : Nat)
    (st : WriterState) :
    (processRelMembers a b members seq st).writeStats.relationsWritten =
      st.writeStats.relationsWritten :=
  (processRelMembers_fields a b members seq st).2.2.2.2.2.1

theorem processRelMembers_currentNodes (a b : Int) (members : List RelMember) (seq : Nat)
    (st : WriterState) :
    (processRelMembers a b members seq st).sections.currentNodes =
      st.sections.currentNodes :=
  (processRelMembers_fields a b members seq st).2.2.2.2.2.2.1

theorem processRelMembers_nodes (a b : Int) (members : List RelMember) (seq : Nat)
    (st : WriterState) :
    (processRelMembers a b members seq st).sections.nodes = st.sections.nodes :=
  (processRelMembers_fields a b members seq st).2.2.2.2.2.2.2

end Hoot

namespace Hoot

theorem writePartialWay_ok_inv {cfg : WriterConfig} {st : WriterState} {w : WayE}
    {st' : WriterState} (h : writePartialWay cfg st w = .ok st') :
    (∃ stm stm',
      incrementChangesInChangeset cfg stm = .ok stm' ∧
      stm.sections.changesets = st.sections.changesets ∧
      stm.changesetData = st.changesetData ∧
      st'.sections.changesets = stm'.sections.changesets ∧
      st'.changesetData = stm'.changesetData) ∧
    st'.writeStats.waysWritten = st.writeStats.waysWritten + 1 ∧
    st'.writeStats.nodesWritten = st.writeStats.nodesWritten ∧
    st'.writeStats.relationsWritten = st.writeStats.relationsWritten ∧
    st'.idMappings.nodeIdMap = st.idMappings.nodeIdMap ∧
    st'.idMappings.relationIdMap = st.idMappings.relationIdMap ∧
    w.id ∈ (st'.idMappings.wayIdMap.getD []).map Prod.fst ∧
    (st.writeStats.waysWritten ≠ 0 →
      ∀ i ∈ (st.idMappings.wayIdMap.getD []).map Prod.fst,
        i ∈ (st'.idMappings.wayIdMap.getD []).map Prod.fst) ∧
    (st.writeStats.waysWritten ≠ 0 →
      w.id ∉ (st.idMappings.wayIdMap.getD []).map Prod.fst) := by
  unfold writePartialWay writeWayToTables at h
  by_cases h0 : st.writeStats.waysWritten = 0
  · rw [if_pos h0] at h
    dsimp only at h
    rw [if_neg (by simp [bmContains])] at h
    split at h
    · exact absurd h (by simp)
    rename_i wnRows hw
    split at h
    · exact absurd h (by simp)
    rename_i st2 hi
    obtain ⟨hif1, hif2, hif3, hif4, hif5⟩ := incrementChangesInChangeset_ok_fields hi
    obtain ⟨hcu1, hcu2, hcu3, hcu4, hcu5, hcu6, hcu7, hcu8, hcu9⟩ :=
      checkUnresolvedReferences_ok_inv h
    refine ⟨⟨_, st2, hi, by simp, by simp, hcu6, hcu2⟩, ?_, ?_, ?_, ?_, ?_, ?_, ?_, ?_⟩
    · simp [hcu4, hif1, h0]
    · simp [hcu3, hif1]
    · simp [hcu5, hif1]
    · simp [hcu1, hif2]
    · simp [hcu1, hif2]
    · simp [hcu1, hif2, bmInsert]
    · exact fun hne => absurd h0 hne
    · exact fun hne => absurd h0 hne
  · rw [if_neg h0] at h
    dsimp only at h
    cases hmp : st.idMappings.wayIdMap with
    | none => rw [hmp] at h; exact absurd h (by simp)
    | some mp =>
      rw [hmp] at h
      dsimp only at h
      by_cases hdup : bmContains mp w.id = true
      · rw [if_pos hdup] at h
        exact absurd h (by simp)
      rw [if_neg hdup] at h
      split at h
      · exact absurd h (by simp)
      rename_i wnRows hw
      split at h
      · exact absurd h (by simp)
      rename_i st2 hi
      obtain ⟨hif1, hif2, hif3, hif4, hif5⟩ := incrementChangesInChangeset_ok_fields hi
      obtain ⟨hcu1, hcu2, hcu3, hcu4, hcu5, hcu6, hcu7, hcu8, hcu9⟩ :=
        checkUnresolvedReferences_ok_inv h
      refine ⟨⟨_, st2, hi, by simp, by simp, hcu6, hcu2⟩, ?_, ?_, ?_, ?_, ?_, ?_, ?_, ?_⟩
      · simp [hcu4, hif1]
      · simp [hcu3, hif1]
      · simp [hcu5, hif1]
      · simp [hcu1, hif2]
      · simp [hcu1, hif2]
      · simp [hcu1, hif2, bmInsert]
      · intro _ i hi2
        simp only [Option.getD_some] at hi2
        simp [hcu1, hif2, bmInsert, hi2]
      · intro _
        simp only [Option.getD_some]
        exact fun hmem => hdup (bmContains_iff.mpr hmem)

theorem writePartialRelation_ok_inv {cfg : WriterConfig} {st : WriterState} {r : RelationE}
    {st' : WriterState} (h : writePartialRelation cfg st r = .ok st') :
    (∃ stm stm',
      incrementChangesInChangeset cfg stm = .ok stm' ∧
      stm.sections.changesets = st.sections.changesets ∧
      stm.changesetData = st.changesetData ∧
      st'.sections.changesets = stm'.sections.changesets ∧
      st'.changesetData = stm'.changesetData) ∧
    st'.writeStats.relationsWritten = st.writeStats.relationsWritten + 1 ∧
    st'.writeStats.nodesWritten = st.writeStats.nodesWritten ∧
    st'.writeStats.waysWritten = st.writeStats.waysWritten ∧
    st'.idMappings.nodeIdMap = st.idMappings.nodeIdMap ∧
    st'.idMappings.wayIdMap = st.idMappings.wayIdMap ∧
    r.id ∈ (st'.idMappings.relationIdMap.getD []).map Prod.fst ∧
    (st.writeStats.relationsWritten ≠ 0 →
      ∀ i ∈ (st.idMappings.relationIdMap.getD []).map Prod.fst,
        i ∈ (st'.idMappings.relationIdMap.getD []).map Prod.fst) ∧
    (st.writeStats.relationsWritten ≠ 0 →
      r.id ∉ (st.idMappings.relationIdMap.getD []).map Prod.fst) := by
  unfold writePartialRelation writeRelationToTables at h
  by_cases h0 : st.writeStats.relationsWritten = 0
  · rw [if_pos h0] at h
    dsimp only at h
    rw [if_neg (by simp [bmContains])] at h
    split at h
    · exact absurd h (by simp)
    rename_i st2 hi
    obtain ⟨hif1, hif2, hif3, hif4, hif5⟩ := incrementChangesInChangeset_ok_fields hi
    obtain ⟨hcu1, hcu2, hcu3, hcu4, hcu5, hcu6, hcu7, hcu8, hcu9⟩ :=
      checkUnresolvedReferences_ok_inv h
    refine ⟨⟨_, st2, hi, by simp [processRelMembers_changesets],
      by simp [processRelMembers_changesetData], hcu6, hcu2⟩, ?_, ?_, ?_, ?_, ?_, ?_, ?_, ?_⟩
    · simp [hcu5, hif1, processRelMembers_nodesWritten, processRelMembers_waysWritten,
        processRelMembers_relationsWritten, h0]
    · simp [hcu3, hif1, processRelMembers_nodesWritten]
    · simp [hcu4, hif1, processRelMembers_waysWritten]
    · simp [hcu1, hif2, processRelMembers_idMappings]
    · simp [hcu1, hif2, processRelMembers_idMappings]
    · simp [hcu1, hif2, processRelMembers_idMappings, bmInsert]
    · exact fun hne => absurd h0 hne
    · exact fun hne => absurd h0 hne
  · rw [if_neg h0] at h
    dsimp only at h
    cases hmp : st.idMappings.relationIdMap with
    | none => rw [hmp] at h; exact absurd h (by simp)
    | some mp =>
      rw [hmp] at h
      dsimp only at h
      by_cases hdup : bmContains mp r.id = true
      · rw [if_pos hdup] at h
        exact absurd h (by simp)
      rw [if_neg hdup] at h
      split at h
      · exact absurd h (by simp)
      rename_i st2 hi
      obtain ⟨hif1, hif2, hif3, hif4, hif5⟩ := incrementChangesInChangeset_ok_fields hi
      obtain ⟨hcu1, hcu2, hcu3, hcu4, hcu5, hcu6, hcu7, hcu8, hcu9⟩ :=
        checkUnresolvedReferences_ok_inv h
      refine ⟨⟨_, st2, hi, by simp [processRelMembers_changesets],
        by simp [processRelMembers_changesetData], hcu6, hcu2⟩, ?_, ?_, ?_, ?_, ?_, ?_, ?_, ?_⟩
      · simp [hcu5, hif1, processRelMembers_relationsWritten]
      · simp [hcu3, hif1, processRelMembers_nodesWritten]
      · simp [hcu4, hif1, processRelMembers_waysWritten]
      · simp [hcu1, hif2, processRelMembers_idMappings]
      · simp [hcu1, hif2, processRelMembers_idMappings]
      · simp [hcu1, hif2, processRelMembers_idMappings, bmInsert]
      · intro _ i hi2
        simp only [Option.getD_some] at hi2
        simp [hcu1, hif2, processRelMembers_idMappings, bmInsert, hi2]
      · intro _
        simp only [Option.getD_some]
        exact fun hmem => hdup (bmContains_iff.mpr hmem)

end Hoot

namespace Hoot

theorem writePartialElement_rejects_present {cfg : WriterConfig} {st : WriterState}
    {e : Element} (h : keyPresent st (elementKey e)) :
    writePartialElement cfg st e =
      .error (.updateNotSupported (elementKey e).1 (elementKey e).2) := by
  cases e with
  | node n =>
    obtain ⟨hnw, hmem⟩ := h
    show writePartialNode cfg st n = _
    unfold writePartialNode
    rw [if_neg hnw]
    dsimp only
    cases hmp : st.idMappings.nodeIdMap with
    | none =>
      rw [hmp] at hmem
      simp at hmem
    | some mp =>
      rw [hmp] at hmem
      simp only [Option.getD_some] at hmem
      dsimp only
      rw [if_pos (bmContains_iff.mpr hmem)]
      rfl
  | way w =>
    obtain ⟨hnw, hmem⟩ := h
    show writePartialWay cfg st w = _
    unfold writePartialWay
    rw [if_neg hnw]
    dsimp only
    cases hmp : st.idMappings.wayIdMap with
    | none =>
      rw [hmp] at hmem
      simp at hmem
    | some mp =>
      rw [hmp] at hmem
      simp only [Option.getD_some] at hmem
      dsimp only
      rw [if_pos (bmContains_iff.mpr hmem)]
      rfl
  | relation r =>
    obtain ⟨hnw, hmem⟩ := h
    show writePartialRelation cfg st r = _
    unfold writePartialRelation
    rw [if_neg hnw]
    dsimp only
    cases hmp : st.idMappings.relationIdMap with
    | none =>
      rw [hmp] at hmem
      simp at hmem
    | some mp =>
      rw [hmp] at hmem
      simp only [Option.getD_some] at hmem
      dsimp only
      rw [if_pos (bmContains_iff.mpr hmem)]
      rfl

theorem writePartialElement_keyPresent_mono {cfg : WriterConfig} {st : WriterState}
    {e : Element} {st' : WriterState} (h : writePartialElement cfg st e = .ok st') :
    (∀ k, keyPresent st k → keyPresent st' k) ∧ keyPresent st' (elementKey e) := by
  cases e with
  | node n =>
    obtain ⟨-, hnw, hww, hrw, hwm, hrm, hmem, hgrow, -⟩ := writePartialNode_ok_inv h
    constructor
    · rintro ⟨t, i⟩ hk
      cases t
      · exact ⟨by simp [hnw], hgrow hk.1 i hk.2⟩
      · exact ⟨by rw [hww]; exact hk.1, by rw [hwm]; exact hk.2⟩
      · exact ⟨by rw [hrw]; exact hk.1, by rw [hrm]; exact hk.2⟩
    · exact ⟨by simp [hnw], hmem⟩
  | way w =>
    obtain ⟨-, hww, hnw, hrw, hnm, hrm, hmem, hgrow, -⟩ := writePartialWay_ok_inv h
    constructor
    · rintro ⟨t, i⟩ hk
      cases t
      · exact ⟨by rw [hnw]; exact hk.1, by rw [hnm]; exact hk.2⟩
      · exact ⟨by simp [hww], hgrow hk.1 i hk.2⟩
      · exact ⟨by rw [hrw]; exact hk.1, by rw [hrm]; exact hk.2⟩
    · exact ⟨by simp [hww], hmem⟩
  | relation r =>
    obtain ⟨-, hrw, hnw, hww, hnm, hwm, hmem, hgrow, -⟩ := writePartialRelation_ok_inv h
    constructor
    · rintro ⟨t, i⟩ hk
      cases t
      · exact ⟨by rw [hnw]; exact hk.1, by rw [hnm]; exact hk.2⟩
      · exact ⟨by rw [hww]; exact hk.1, by rw [hwm]; exact hk.2⟩
      · exact ⟨by simp [hrw], hgrow hk.1 i hk.2⟩
    · exact ⟨by simp [hrw], hmem⟩

theorem processElements_fresh {cfg : WriterConfig} :
    ∀ {elems : List Element} {st st' : WriterState},
    processElements cfg st elems = .ok st' →
    ∀ e ∈ elems, ¬ keyPresent st (elementKey e) := by
  intro elems
  induction elems with
  | nil =>
    intro st st' h e he
    cases he
  | cons e0 rest ih =>
    intro st st' h e he
    unfold processElements at h
    cases hw : writePartialElement cfg st e0 with
    | error err =>
      rw [hw] at h
      exact absurd h (by simp)
    | ok st1 =>
      rw [hw] at h
      rcases List.mem_cons.mp he with rfl | hrest
      · intro hk
        have hrej := @writePartialElement_rejects_present cfg _ _ hk
        rw [hrej] at hw
        exact absurd hw (by simp)
      · intro hk
        exact ih h e hrest ((writePartialElement_keyPresent_mono hw).1 _ hk)

theorem processElements_keys_nodup {cfg : WriterConfig} :
    ∀ {elems : List Element} {st st' : WriterState},
    processElements cfg st elems = .ok st' → (elems.map elementKey).Nodup := by
  intro elems
  induction elems with
  | nil => intro st st' h; simp
  | cons e0 rest ih =>
    intro st st' h
    unfold processElements at h
    cases hw : writePartialElement cfg st e0 with
    | error err =>
      rw [hw] at h
      exact absurd h (by simp)
    | ok st1 =>
      rw [hw] at h
      rw [List.map_cons, List.nodup_cons]
      refine ⟨?_, ih h⟩
      intro hmem
      obtain ⟨e, he, heq⟩ := List.mem_map.mp hmem
      have hp : keyPresent st1 (elementKey e) := by
        have := (writePartialElement_keyPresent_mono hw).2
        rw [heq]
        exact this
      exact processElements_fresh h e he hp

/-- C9: an element whose (kind, source id) was already written in the
current session is rejected by `writePartial` with the
update-not-supported error (`NotImplementedException` in the source);
consequently any successfully processed stream has pairwise distinct
(kind, source id) keys, so no two rows are ever emitted for the same
key. -/
theorem claim_c9_duplicate_source_id_rejected :
    (∀ (cfg : WriterConfig) (st : WriterState) (e : Element),
      keyPresent st (elementKey e) →
      writePartialElement cfg st e =
        .error (.updateNotSupported (elementKey e).1 (elementKey e).2)) ∧
    (∀ (cfg : WriterConfig) (st st' : WriterState) (elems : List Element),
      processElements cfg st elems = .ok st' → (elems.map elementKey).Nodup) :=
  ⟨fun _ _ _ h => writePartialElement_rejects_present h,
   fun _ _ _ _ h => processElements_keys_nodup h⟩

/-- Witness for C9: a state that already wrote node −1 rejects a second
node −1. -/
theorem claim_c9_duplicate_source_id_rejected_witness :
    keyPresent c9State (elementKey (Element.node ⟨-1, 0, 0, []⟩)) ∧
    writePartialElement exCfg c9State (Element.node ⟨-1, 0, 0, []⟩) =
      .error (.updateNotSupported ElementType.node (-1)) :=
  ⟨⟨by decide, by decide⟩,
    claim_c9_duplicate_source_id_rejected.1 exCfg c9State (Element.node ⟨-1, 0, 0, []⟩)
      ⟨by decide, by decide⟩⟩

end Hoot

namespace Hoot

/-- Counterexample to C4 as stated: in a concrete assembled script the
`\.` terminators are each followed by three blank lines, not two — the
copy loop's `do/while` echoes the final null `readLine` as one more
empty line per section. -/
theorem claim_c4_counterexample_three_blanks :
    blankRunsAfterTerminators (writeCombinedSqlFileLines Mode.offline c4Sections) = [3, 3] ∧
    ¬ (∀ r ∈ blankRunsAfterTerminators (writeCombinedSqlFileLines Mode.offline c4Sections),
        r = 2) := by
  refine ⟨by decide, by decide⟩

theorem blankRuns_append_no_term {B : List String} :
    ∀ {A : List String}, (∀ l ∈ A, l ≠ "\\.") →
    blankRunsAfterTerminators (A ++ B) = blankRunsAfterTerminators B := by
  intro A
  induction A with
  | nil => intro _; rfl
  | cons l ls ih =>
    intro hA
    rw [List.cons_append]
    simp only [blankRunsAfterTerminators]
    rw [if_neg (hA l (List.mem_cons_self l ls))]
    exact ih (fun x hx => hA x (List.mem_cons_of_mem l hx))

theorem countLeadingBlanks_eq_zero {B : List String} (h : B.headD "COMMIT;" ≠ "") :
    countLeadingBlanks B = 0 := by
  cases B with
  | nil => rfl
  | cons l ls =>
    simp only [List.headD_cons] at h
    simp only [countLeadingBlanks]
    rw [if_neg h]

theorem blankRuns_term_cons (ls : List String) :
    blankRunsAfterTerminators ("\\." :: ls) =
      countLeadingBlanks ls :: blankRunsAfterTerminators ls := by
  simp [blankRunsAfterTerminators]

theorem copyChunk_head {mode : Mode} {ctn : String → Option (List String)} :
    ∀ (names : List String),
    (∀ n ∈ names, n ≠ "byte_order_mark" ∧ n ≠ "sequence_updates") →
    (∀ n ∈ names, ∀ l ∈ (ctn n).getD [], l ≠ "" ∧ l ≠ "\\.") →
    (names.flatMap (sectionChunk mode ctn) ++ ["COMMIT;"]).headD "COMMIT;" ≠ "" := by
  intro names
  induction names with
  | nil => intro _ _; simp
  | cons n rest ih =>
    intro hnb hc
    have hnb0 := hnb n (List.mem_cons_self n rest)
    rw [List.flatMap_cons]
    rw [sectionChunk, if_neg (fun hand => hnb0.2 hand.2)]
    cases hctn : ctn n with
    | none =>
      simpa using ih (fun x hx => hnb x (List.mem_cons_of_mem n hx))
        (fun x hx => hc x (List.mem_cons_of_mem n hx))
    | some content =>
      simp only [sectionOutputLines]
      rw [if_pos hnb0]
      cases hcontent : content with
      | nil => simp
      | cons l0 rest0 =>
        have hl0 := (hc n (List.mem_cons_self n rest) l0 (by simp [hctn, hcontent])).1
        simpa using hl0

end Hoot

namespace Hoot

theorem blankRuns_flatMap_copy {mode : Mode} {ctn : String → Option (List String)} :
    ∀ (names : List String),
    (∀ n ∈ names, n ≠ "byte_order_mark" ∧ n ≠ "sequence_updates") →
    (∀ n ∈ names, ∀ l ∈ (ctn n).getD [], l ≠ "" ∧ l ≠ "\\.") →
    blankRunsAfterTerminators (names.flatMap (sectionChunk mode ctn) ++ ["COMMIT;"]) =
      List.replicate ((names.filter (fun n => (ctn n).isSome)).length) 3 := by
  intro names
  induction names with
  | nil => intro _ _; simp [blankRunsAfterTerminators]
  | cons n rest ih =>
    intro hnb hc
    have hnb0 := hnb n (List.mem_cons_self n rest)
    have hnbr := fun x hx => hnb x (List.mem_cons_of_mem n hx)
    have hcr := fun x hx => hc x (List.mem_cons_of_mem n hx)
    rw [List.flatMap_cons, List.filter_cons]
    rw [sectionChunk, if_neg (fun hand => hnb0.2 hand.2)]
    cases hctn : ctn n with
    | none =>
      simp only [hctn, Option.isSome_none, List.nil_append, cond_false]
      simpa using ih hnbr hcr
    | some content =>
      simp only [sectionOutputLines]
      rw [if_pos hnb0]
      have hcnt : ∀ l ∈ content, l ≠ "" ∧ l ≠ "\\." := by
        intro l hl
        exact hc n (List.mem_cons_self n rest) l (by simp [hctn, hl])
      have hhead := @copyChunk_head mode ctn rest hnbr hcr
      simp only [List.append_assoc]
      rw [blankRuns_append_no_term (fun l hl => (hcnt l hl).2)]
      simp only [List.cons_append, List.nil_append]
      rw [blankRuns_term_cons]
      have hclb : countLeadingBlanks
          ("" :: "" :: "" :: (rest.flatMap (sectionChunk mode ctn) ++ ["COMMIT;"])) = 3 := by
        simp only [countLeadingBlanks]
        rw [countLeadingBlanks_eq_zero hhead]
        simp
      have hblanks : ∀ l ∈ ["", "", ""], l ≠ "\\." := by decide
      rw [show ("" :: "" :: "" :: (rest.flatMap (sectionChunk mode ctn) ++ ["COMMIT;"])) =
        ["", "", ""] ++ (rest.flatMap (sectionChunk mode ctn) ++ ["COMMIT;"]) from rfl] at hclb ⊢
      rw [blankRuns_append_no_term hblanks]
      rw [hclb, ih hnbr hcr]
      simp [hctn, List.replicate_succ]

end Hoot

namespace Hoot

/-- C4 amended: present sections appear in canonical order (any
earlier-listed section's chunk lies wholly before any later one's), and
every copy-data terminator `\.` is followed by exactly three blank
lines (two from the `\.\n\n\n` terminator string, one from the
end-of-file echo of the copy loop), provided rows are nonblank and
distinct from the terminator as the writer emits them. -/
theorem claim_c4_canonical_order_three_blanks (mode : Mode)
    (ctn : String → Option (List String))
    (hbom : ∀ l ∈ (ctn "byte_order_mark").getD [], l ≠ "\\.")
    (hseq : ∀ l ∈ (ctn "sequence_updates").getD [], l ≠ "\\.")
    (hcopy : ∀ n ∈ copySectionNames, ∀ l ∈ (ctn n).getD [], l ≠ "" ∧ l ≠ "\\.") :
    (∀ (l₁ l₂ : List String) (n₁ n₂ : String), sectionNames = l₁ ++ n₁ :: l₂ → n₂ ∈ l₂ →
      ∃ A B C, writeCombinedSqlFileLines mode ctn =
        A ++ sectionChunk mode ctn n₁ ++ B ++ sectionChunk mode ctn n₂ ++ C) ∧
    blankRunsAfterTerminators (writeCombinedSqlFileLines mode ctn) =
      List.replicate (presentCopyCount ctn) 3 := by
  constructor
  · intro l₁ l₂ n₁ n₂ hdecomp hmem
    obtain ⟨s, t, rfl⟩ := List.append_of_mem hmem
    refine ⟨"BEGIN TRANSACTION;" :: l₁.flatMap (sectionChunk mode ctn),
      s.flatMap (sectionChunk mode ctn),
      t.flatMap (sectionChunk mode ctn) ++ ["COMMIT;"], ?_⟩
    unfold writeCombinedSqlFileLines
    rw [hdecomp]
    simp [List.flatMap_append, List.flatMap_cons, List.append_assoc, List.cons_append]
  · have hbomlines : ∀ l ∈ sectionChunk mode ctn "byte_order_mark", l ≠ "\\." := by
      intro l hl
      rw [sectionChunk, if_neg (by simp)] at hl
      cases hctn : ctn "byte_order_mark" with
      | none => rw [hctn] at hl; cases hl
      | some c =>
        rw [hctn] at hl
        simp only [sectionOutputLines] at hl
        rw [if_neg (by simp)] at hl
        rcases List.mem_append.mp hl with hc | hc
        · exact hbom l (by simp [hctn, hc])
        · simp at hc; subst hc; decide
    have hseqlines : ∀ l ∈ sectionChunk mode ctn "sequence_updates", l ≠ "\\." := by
      intro l hl
      by_cases hskip : mode = Mode.online ∧ ("sequence_updates" : String) = "sequence_updates"
      · rw [sectionChunk, if_pos hskip] at hl
        cases hl
      · rw [sectionChunk, if_neg hskip] at hl
        cases hctn : ctn "sequence_updates" with
        | none => rw [hctn] at hl; cases hl
        | some c =>
          rw [hctn] at hl
          simp only [sectionOutputLines] at hl
          rw [if_neg (by simp)] at hl
          rcases List.mem_append.mp hl with hc | hc
          · exact hseq l (by simp [hctn, hc])
          · simp at hc; subst hc; decide
    have hsn : sectionNames = "byte_order_mark" :: "sequence_updates" :: copySectionNames := by
      decide
    unfold writeCombinedSqlFileLines
    rw [hsn, List.flatMap_cons, List.flatMap_cons]
    simp only [List.append_assoc]
    simp only [blankRunsAfterTerminators]
    rw [if_neg (by decide)]
    rw [blankRuns_append_no_term hbomlines, blankRuns_append_no_term hseqlines,
      blankRuns_flatMap_copy copySectionNames (by decide) hcopy]
    rfl

end Hoot

namespace Hoot

/-- Witness for the amended C4 at the example sections. -/
theorem claim_c4_canonical_order_three_blanks_witness :
    (∀ l ∈ (c4Sections "byte_order_mark").getD [], l ≠ "\\.") ∧
    (∀ l ∈ (c4Sections "sequence_updates").getD [], l ≠ "\\.") ∧
    (∀ n ∈ copySectionNames, ∀ l ∈ (c4Sections n).getD [], l ≠ "" ∧ l ≠ "\\.") ∧
    blankRunsAfterTerminators (writeCombinedSqlFileLines Mode.offline c4Sections) =
      List.replicate (presentCopyCount c4Sections) 3 :=
  ⟨by decide, by decide, by decide,
    (claim_c4_canonical_order_three_blanks Mode.offline c4Sections (by decide) (by decide)
      (by decide)).2⟩

end Hoot

namespace Hoot

theorem incrementChangesInChangeset_ok_cases {cfg : WriterConfig} {st st' : WriterState}
    (h : incrementChangesInChangeset cfg st = .ok st') :
    (st.changesetData.changesInChangeset + 1 ≠ cfg.maxChangesetSize ∧
      st' = { st with
        changesetData :=
          { st.changesetData with
            changesInChangeset := st.changesetData.changesInChangeset + 1 } }) ∨
    (st.changesetData.changesInChangeset + 1 = cfg.maxChangesetSize ∧
      st.changesetData.changesetUserId ≠ -1 ∧
      (st.changesetData.currentChangesetId = 1 ∨ st.sections.changesets ≠ none) ∧
      st' = { st with
        sections :=
          { st.sections with
            changesets :=
              some ((if st.changesetData.currentChangesetId = 1 then []
                else st.sections.changesets.getD []) ++
                [⟨st.changesetData.currentChangesetId, st.changesetData.changesetUserId,
                  st.changesetData.changesInChangeset + 1⟩]) }
        changesetData :=
          { st.changesetData with
            currentChangesetId := st.changesetData.currentChangesetId + 1
            changesInChangeset := 0
            changesetsWritten := st.changesetData.changesetsWritten + 1 } }) := by
  unfold incrementChangesInChangeset at h
  dsimp only at h
  split_ifs at h with hm
  · right
    cases hw : writeChangesetToTable
        { st with
          changesetData :=
            { st.changesetData with
              changesInChangeset := st.changesetData.changesInChangeset + 1 } } with
    | error e => rw [hw] at h; exact absurd h (by simp)
    | ok st2 =>
      rw [hw] at h
      obtain ⟨hu, hcs, rfl⟩ := writeChangesetToTable_ok_inv hw
      injection h with h
      subst h
      refine ⟨hm, hu, hcs, ?_⟩
      rfl
  · left
    refine ⟨hm, ?_⟩
    injection h with h
    exact h.symm

end Hoot

namespace Hoot

theorem changesInv_step {cfg : WriterConfig} {st stm stm' st' : WriterState}
    (hi : incrementChangesInChangeset cfg stm = .ok stm')
    (l1 : stm.sections.changesets = st.sections.changesets)
    (l2 : stm.changesetData = st.changesetData)
    (l3 : st'.sections.changesets = stm'.sections.changesets)
    (l4 : st'.changesetData = stm'.changesetData)
    (l5 : changesTotal st' = changesTotal st + 1)
    (hI : ChangesInv cfg.maxChangesetSize st) :
    ChangesInv cfg.maxChangesetSize st' := by
  obtain ⟨hsum, hbound, hlt, hz, hpos⟩ := hI
  rcases incrementChangesInChangeset_ok_cases hi with ⟨hm, rfl⟩ | ⟨hm, hu, hcs, rfl⟩
  · have e1 : st'.sections.changesets = st.sections.changesets := by
      rw [l3]; simpa using l1
    have e2 : st'.changesetData.changesInChangeset =
        st.changesetData.changesInChangeset + 1 := by
      rw [l4]; simp [l2]
    have e3 : st'.changesetData.currentChangesetId =
        st.changesetData.currentChangesetId := by
      rw [l4]; simp [l2]
    have hm' : st.changesetData.changesInChangeset + 1 ≠ cfg.maxChangesetSize := by
      rw [l2] at hm; exact hm
    refine ⟨?_, ?_, ?_, ?_, ?_⟩
    · unfold csSum at hsum ⊢
      rw [e1, e2, l5]
      omega
    · rw [e1]
      exact hbound
    · rw [e2]
      intro h0
      have := hlt h0
      omega
    · rw [e3, e1]
      exact hz
    · rw [e3, e1]
      exact hpos
  · have e1 : st'.sections.changesets =
        some ((if st.changesetData.currentChangesetId = 1 then []
          else st.sections.changesets.getD []) ++
          [⟨st.changesetData.currentChangesetId, st.changesetData.changesetUserId,
            st.changesetData.changesInChangeset + 1⟩]) := by
      rw [l3]; simp [l1, l2]
    have hified : (if st.changesetData.currentChangesetId = 1 then ([] : List ChangesetRow)
        else st.sections.changesets.getD []) = st.sections.changesets.getD [] := by
      by_cases h1 : st.changesetData.currentChangesetId = 1
      · rw [if_pos h1, hz h1]
      · rw [if_neg h1]
    have e2 : st'.changesetData.changesInChangeset = 0 := by
      rw [l4]
    have e3 : st'.changesetData.currentChangesetId =
        st.changesetData.currentChangesetId + 1 := by
      rw [l4]; simp [l2]
    have hm' : st.changesetData.changesInChangeset + 1 = cfg.maxChangesetSize := by
      rw [l2] at hm; exact hm
    have hcs' : st.changesetData.currentChangesetId = 1 ∨
        st.sections.changesets ≠ none := by
      rw [l2, l1] at hcs; exact hcs
    refine ⟨?_, ?_, ?_, ?_, ?_⟩
    · unfold csSum at hsum ⊢
      rw [e1, hified, e2, l5]
      simp only [Option.getD_some, List.map_append, List.sum_append, List.map_cons,
        List.map_nil, List.sum_cons, List.sum_nil]
      omega
    · intro r hr
      rw [e1, hified] at hr
      simp only [Option.getD_some, List.mem_append, List.mem_cons, List.not_mem_nil,
        or_false] at hr
      rcases hr with hr | hr
      · exact hbound r hr
      · subst hr
        simp [hm'.le]
    · rw [e2]
      intro h0
      exact h0
    · rw [e3]
      intro habs
      exfalso
      have hc0 : st.changesetData.currentChangesetId = 0 := by omega
      rcases hpos with hp | hp
      · omega
      · rcases hcs' with hc | hc
        · omega
        · exact hc hp
    · left
      rw [e3]
      rcases hpos with hp | hp
      · omega
      · rcases hcs' with hc | hc
        · omega
        · exact absurd hp hc

end Hoot

namespace Hoot

theorem changesInv_writePartialElement {cfg : WriterConfig} {st st' : WriterState}
    {e : Element} (h : writePartialElement cfg st e = .ok st')
    (hI : ChangesInv cfg.maxChangesetSize st) : ChangesInv cfg.maxChangesetSize st' := by
  cases e with
  | node n =>
    obtain ⟨⟨stm, stm', hi, l1, l2, l3, l4⟩, hc1, hc2, hc3, -⟩ := writePartialNode_ok_inv h
    exact changesInv_step hi l1 l2 l3 l4 (by unfold changesTotal; omega) hI
  | way w =>
    obtain ⟨⟨stm, stm', hi, l1, l2, l3, l4⟩, hc1, hc2, hc3, -⟩ := writePartialWay_ok_inv h
    exact changesInv_step hi l1 l2 l3 l4 (by unfold changesTotal; omega) hI
  | relation r =>
    obtain ⟨⟨stm, stm', hi, l1, l2, l3, l4⟩, hc1, hc2, hc3, -⟩ :=
      writePartialRelation_ok_inv h
    exact changesInv_step hi l1 l2 l3 l4 (by unfold changesTotal; omega) hI

theorem changesInv_processElements {cfg : WriterConfig} :
    ∀ (elems : List Element) (st st' : WriterState),
      processElements cfg st elems = .ok st' →
      ChangesInv cfg.maxChangesetSize st → ChangesInv cfg.maxChangesetSize st'
  | [], st, st', h, hI => by
    unfold processElements at h
    cases h
    exact hI
  | e :: rest, st, st', h, hI => by
    unfold processElements at h
    cases hw : writePartialElement cfg st e with
    | error err => rw [hw] at h; exact absurd h (by simp)
    | ok stm =>
      rw [hw] at h
      dsimp only at h
      exact changesInv_processElements rest stm st' h (changesInv_writePartialElement hw hI)

theorem changesInv_openWriter (maxSize : Nat) (mode : Mode) (db : DbState)
    (cfg : WriterConfig) : ChangesInv maxSize (openWriter mode db cfg) := by
  unfold ChangesInv csSum changesTotal openWriter getLatestIdsFromDb initState
  cases mode <;> simp

theorem finalizeBulk_ok_state {mode : Mode} {db : DbState} {st : WriterState}
    {out : FinalOutput} (hfin : finalizeBulk mode db st = .ok (some out)) :
    ∃ st1,
      (if st.changesetData.changesInChangeset > 0 then writeChangesetToTable st
        else .ok st) = .ok st1 ∧
      out.state.sections.changesets = st1.sections.changesets ∧
      out.state.writeStats = st1.writeStats := by
  unfold finalizeBulk at hfin
  split at hfin
  · exact absurd hfin (by simp)
  cases hfl : (if st.changesetData.changesInChangeset > 0 then writeChangesetToTable st
      else .ok st) with
  | error e => rw [hfl] at hfin; exact absurd hfin (by simp)
  | ok st1 =>
    rw [hfl] at hfin
    dsimp only at hfin
    refine ⟨st1, rfl, ?_⟩
    cases mode with
    | offline =>
      dsimp only at hfin
      have h1 := Option.some.inj (Except.ok.inj hfin)
      subst h1
      constructor
      · split <;> rfl
      · split <;> rfl
    | online =>
      dsimp only at hfin
      split at hfin
      all_goals split at hfin
      all_goals try exact Except.noConfusion hfin
      all_goals try dsimp only at hfin
      all_goals have h1 := Option.some.inj (Except.ok.inj hfin)
      all_goals subst h1
      all_goals constructor
      all_goals simp [getLatestIdsFromDb]

end Hoot

namespace Hoot

/-- C6: for every stream that finalizes successfully, every flushed
changeset row is bounded by the changeset size and the flushed counts
sum to the elements written. -/
theorem claim_c6_changeset_accounting (cfg : WriterConfig) (mode : Mode) (db : DbState)
    (elems : List Element) (st : WriterState) (out : FinalOutput)
    (hmax : 0 < cfg.maxChangesetSize)
    (hrun : processElements cfg (openWriter mode db cfg) elems = .ok st)
    (hfin : finalizeBulk mode db st = .ok (some out)) :
    (∀ r ∈ out.state.sections.changesets.getD [],
      r.numChanges ≤ cfg.maxChangesetSize) ∧
    csSum out.state = changesTotal out.state := by
  have hI := changesInv_processElements elems (openWriter mode db cfg) st hrun
    (changesInv_openWriter cfg.maxChangesetSize mode db cfg)
  obtain ⟨hsum, hbound, hlt, hz, hpos⟩ := hI
  obtain ⟨st1, hfl, hsec, hws⟩ := finalizeBulk_ok_state hfin
  have key : (∀ r ∈ st1.sections.changesets.getD [],
      r.numChanges ≤ cfg.maxChangesetSize) ∧
      ((st1.sections.changesets.getD []).map ChangesetRow.numChanges).sum =
        st1.writeStats.nodesWritten + st1.writeStats.waysWritten +
          st1.writeStats.relationsWritten := by
    by_cases hc : st.changesetData.changesInChangeset > 0
    · rw [if_pos hc] at hfl
      obtain ⟨-, -, rfl⟩ := writeChangesetToTable_ok_inv hfl
      have hified : (if st.changesetData.currentChangesetId = 1 then ([] : List ChangesetRow)
          else st.sections.changesets.getD []) = st.sections.changesets.getD [] := by
        by_cases h1 : st.changesetData.currentChangesetId = 1
        · rw [if_pos h1, hz h1]
        · rw [if_neg h1]
      unfold csSum changesTotal at hsum
      constructor
      · intro r hr
        dsimp only at hr
        simp only [Option.getD_some] at hr
        rw [hified] at hr
        simp only [List.mem_append, List.mem_cons, List.not_mem_nil, or_false] at hr
        rcases hr with hr | hr
        · exact hbound r hr
        · subst hr
          exact le_of_lt (hlt hmax)
      · dsimp only
        simp only [Option.getD_some]
        rw [hified]
        simp only [List.map_append, List.sum_append, List.map_cons, List.map_nil,
          List.sum_cons, List.sum_nil]
        omega
    · rw [if_neg hc] at hfl
      cases hfl
      unfold csSum changesTotal at hsum
      refine ⟨hbound, ?_⟩
      omega
  constructor
  · intro r hr
    rw [hsec] at hr
    exact key.1 r hr
  · unfold csSum changesTotal
    rw [hsec, hws]
    exact key.2

/-- Witness for C6 at an offline run of a single node. -/
theorem claim_c6_changeset_accounting_witness :
    (0 < exCfg.maxChangesetSize) ∧
    ((∀ r ∈ c6Out.state.sections.changesets.getD [],
        r.numChanges ≤ exCfg.maxChangesetSize) ∧
      csSum c6Out.state = changesTotal c6Out.state) :=
  ⟨by decide,
    claim_c6_changeset_accounting exCfg Mode.offline exDb [Element.node nodeOrigin]
      c6RunState c6Out (by decide) (by decide) (by decide)⟩

end Hoot

namespace Hoot

theorem writeNodeToTables_fwd {st : WriterState} {n : NodeE} {dbId : Int}
    (hlat : latValid n.lat) (hlon : lonValid n.lon) :
    writeNodeToTables st n dbId = .ok
      { st with
        sections :=
          { st.sections with
            currentNodes :=
              st.sections.currentNodes ++
                [⟨dbId, asInt32 (convertDegreesToNanodegrees n.lat),
                  asInt32 (convertDegreesToNanodegrees n.lon),
                  st.changesetData.currentChangesetId⟩]
            nodes :=
              st.sections.nodes ++
                [⟨dbId, asInt32 (convertDegreesToNanodegrees n.lat),
                  asInt32 (convertDegreesToNanodegrees n.lon),
                  st.changesetData.currentChangesetId⟩] } } := by
  obtain ⟨ha, hb⟩ := hlat
  obtain ⟨hc, hd⟩ := hlon
  unfold writeNodeToTables
  dsimp only
  rw [if_neg (by omega), if_neg (by omega)]

theorem writeChangesetToTable_fwd {st : WriterState}
    (hu : st.changesetData.changesetUserId ≠ -1)
    (hcs : st.changesetData.currentChangesetId = 1 ∨ st.sections.changesets ≠ none) :
    ∃ st', writeChangesetToTable st = .ok st' := by
  unfold writeChangesetToTable
  rw [if_neg hu]
  dsimp only
  by_cases h1 : st.changesetData.currentChangesetId = 1
  · rw [if_pos h1]
    exact ⟨_, rfl⟩
  · rw [if_neg h1]
    cases hcse : st.sections.changesets with
    | none =>
      rcases hcs with h | h
      · exact absurd h h1
      · exact absurd hcse h
    | some rows => exact ⟨_, rfl⟩

theorem incrementChangesInChangeset_fwd {cfg : WriterConfig} {st : WriterState}
    (hu : st.changesetData.changesetUserId ≠ -1)
    (hcs : st.changesetData.currentChangesetId = 1 ∨ st.sections.changesets ≠ none) :
    ∃ st', incrementChangesInChangeset cfg st = .ok st' := by
  unfold incrementChangesInChangeset
  dsimp only
  split
  · obtain ⟨st', hw⟩ := @writeChangesetToTable_fwd
      { st with
        changesetData :=
          { st.changesetData with
            changesInChangeset := st.changesetData.changesInChangeset + 1 } } hu hcs
    rw [hw]
    exact ⟨_, rfl⟩
  · exact ⟨_, rfl⟩

theorem checkUnresolvedReferences_none_fwd {st : WriterState} {sid dbid : Int}
    (h1 : st.unresolvedRefs.unresolvedRelationRefs = none)
    (h2 : st.unresolvedRefs.unresolvedWaynodeKeys = none) :
    checkUnresolvedReferences st ElementType.node sid dbid = .ok st := by
  unfold checkUnresolvedReferences
  rw [h1]
  dsimp only
  simp [h2]

end Hoot

namespace Hoot

theorem writePartialNode_staged {cfg : WriterConfig} {st : WriterState} {n : NodeE}
    {mp : List (Int × Int)}
    (hid : (if st.writeStats.nodesWritten = 0 then
      { st with idMappings := { st.idMappings with nodeIdMap := some [] } } else st) = st)
    (hmp : st.idMappings.nodeIdMap = some mp)
    (hbm : ¬(bmContains mp n.id = true))
    (hlat : latValid n.lat) (hlon : lonValid n.lon) :
    writePartialNode cfg st n =
      match incrementChangesInChangeset cfg (nodeStaged st n mp) with
      | .error e => .error e
      | .ok st4 =>
        checkUnresolvedReferences st4 ElementType.node n.id st.idMappings.currentNodeId := by
  unfold writePartialNode
  dsimp only
  rw [hid, hmp]
  dsimp only
  rw [if_neg hbm, writeNodeToTables_fwd hlat hlon]
  dsimp only
  unfold nodeStaged
  dsimp only

end Hoot

namespace Hoot

theorem range_map_succ (start : Int) (k : Nat) :
    (List.range (k + 1)).map (fun i => start + (i : Int)) =
      (List.range k).map (fun i => start + (i : Int)) ++ [start + (k : Int)] := by
  rw [List.range_succ]
  simp

theorem nodeInv_core {cfg : WriterConfig} {userId start : Int} {seen : List Int}
    {st : WriterState} {n : NodeE} {mp : List (Int × Int)}
    (hid : (if st.writeStats.nodesWritten = 0 then
      { st with idMappings := { st.idMappings with nodeIdMap := some [] } } else st) = st)
    (hmp : st.idMappings.nodeIdMap = some mp)
    (hmap : mp.map Prod.fst = seen)
    (h1 : st.writeStats.nodesWritten = seen.length)
    (h2 : st.idMappings.currentNodeId = start + seen.length)
    (h5 : st.sections.currentNodes.map NodeRow.id =
      (List.range seen.length).map (fun i => start + (i : Int)))
    (h6 : st.sections.nodes.map NodeRow.id =
      (List.range seen.length).map (fun i => start + (i : Int)))
    (h7 : st.unresolvedRefs.unresolvedRelationRefs = none)
    (h8 : st.unresolvedRefs.unresolvedWaynodeKeys = none)
    (h9 : st.changesetData.changesetUserId = userId)
    (h10 : st.changesetData.currentChangesetId = 1 ∨ st.sections.changesets ≠ none)
    (hu : userId ≠ -1) (hfresh : n.id ∉ seen)
    (hlat : latValid n.lat) (hlon : lonValid n.lon) :
    ∃ st', writePartialNode cfg st n = .ok st' ∧
      NodeInv userId start (seen ++ [n.id]) st' := by
  have hbm : ¬(bmContains mp n.id = true) := by
    rw [bmContains_iff, hmap]; exact hfresh
  rw [writePartialNode_staged hid hmp hbm hlat hlon]
  obtain ⟨st4, hinc⟩ := @incrementChangesInChangeset_fwd cfg (nodeStaged st n mp)
    (by unfold nodeStaged; dsimp only; rw [h9]; exact hu)
    (by unfold nodeStaged; dsimp only; exact h10)
  rw [hinc]
  dsimp only
  obtain ⟨hf1, hf2, hf3, hf4, hf5⟩ := incrementChangesInChangeset_ok_fields hinc
  have hu4a : st4.unresolvedRefs.unresolvedRelationRefs = none := by
    rw [hf3]; unfold nodeStaged; dsimp only; exact h7
  have hu4b : st4.unresolvedRefs.unresolvedWaynodeKeys = none := by
    rw [hf3]; unfold nodeStaged; dsimp only; exact h8
  rw [checkUnresolvedReferences_none_fwd hu4a hu4b]
  refine ⟨st4, rfl, ?_, ?_, ?_, ?_, ?_, ?_, hu4a, hu4b, ?_, ?_⟩
  · rw [hf1]; unfold nodeStaged; dsimp only; rw [h1]; simp
  · rw [hf2]; unfold nodeStaged; dsimp only; rw [h2]
    simp only [List.length_append, List.length_cons, List.length_nil]
    push_cast
    ring
  · rw [hf2]; unfold nodeStaged; dsimp only
    simp [bmInsert, hmap]
  · intro
    rw [hf2]; unfold nodeStaged; dsimp only
    simp
  · rw [hf4]; dsimp only; unfold nodeStaged; dsimp only
    simp only [List.map_append, h5, List.length_append, List.length_cons,
      List.length_nil]
    rw [range_map_succ]
    simp [h2]
  · rw [hf4]; dsimp only; unfold nodeStaged; dsimp only
    simp only [List.map_append, h6, List.length_append, List.length_cons,
      List.length_nil]
    rw [range_map_succ]
    simp [h2]
  · rw [hf5]; unfold nodeStaged; dsimp only; exact h9
  · rcases incrementChangesInChangeset_ok_cases hinc with ⟨-, rfl⟩ | ⟨-, -, -, rfl⟩
    · unfold nodeStaged; dsimp only
      exact h10
    · right; simp

end Hoot

namespace Hoot

theorem nodeInv_step {cfg : WriterConfig} {userId start : Int} {seen : List Int}
    {st : WriterState} {n : NodeE}
    (hI : NodeInv userId start seen st) (hu : userId ≠ -1) (hfresh : n.id ∉ seen)
    (hlat : latValid n.lat) (hlon : lonValid n.lon) :
    ∃ st', writePartialNode cfg st n = .ok st' ∧
      NodeInv userId start (seen ++ [n.id]) st' := by
  obtain ⟨h1, h2, h3, h4, h5, h6, h7, h8, h9, h10⟩ := hI
  by_cases h0 : st.writeStats.nodesWritten = 0
  · have hseen : seen = [] := List.eq_nil_of_length_eq_zero (by omega)
    subst hseen
    have hip : writePartialNode cfg st n = writePartialNode cfg
        { st with idMappings := { st.idMappings with nodeIdMap := some [] } } n := by
      unfold writePartialNode
      dsimp only
      rw [if_pos h0, if_pos (show st.writeStats.nodesWritten = 0 from h0)]
    rw [hip]
    exact nodeInv_core (by rw [if_pos (show st.writeStats.nodesWritten = 0 from h0)])
      rfl rfl (by dsimp only; omega) (by dsimp only; simpa using h2)
      (by dsimp only; simpa using h5) (by dsimp only; simpa using h6)
      h7 h8 h9 h10 hu hfresh hlat hlon
  · have hne : seen ≠ [] := by
      intro hnil
      rw [hnil] at h1
      exact h0 h1
    cases hmp : st.idMappings.nodeIdMap with
    | none => exact absurd hmp (h4 hne)
    | some mp =>
      rw [hmp] at h3
      exact nodeInv_core (by rw [if_neg h0]) hmp (by simpa using h3) h1 h2 h5 h6
        h7 h8 h9 h10 hu hfresh hlat hlon

theorem nodeInv_run {cfg : WriterConfig} {userId start : Int} :
    ∀ (ns : List NodeE) (seen : List Int) (st : WriterState),
      NodeInv userId start seen st → userId ≠ -1 →
      (ns.map NodeE.id).Nodup →
      (∀ m ∈ ns, m.id ∉ seen) →
      (∀ m ∈ ns, latValid m.lat ∧ lonValid m.lon) →
      ∃ st', processElements cfg st (ns.map Element.node) = .ok st' ∧
        NodeInv userId start (seen ++ ns.map NodeE.id) st'
  | [], seen, st, hI, _, _, _, _ => ⟨st, rfl, by simpa using hI⟩
  | m :: ns, seen, st, hI, hu, hnd, hout, hval => by
    obtain ⟨st1, hw, hI1⟩ := @nodeInv_step cfg _ _ _ _ _ hI hu
      (hout m (List.mem_cons_self m ns)) (hval m (List.mem_cons_self m ns)).1
      (hval m (List.mem_cons_self m ns)).2
    simp only [List.map_cons, List.nodup_cons] at hnd
    obtain ⟨hhead, htail⟩ := hnd
    have hout1 : ∀ k ∈ ns, k.id ∉ seen ++ [m.id] := by
      intro k hk
      simp only [List.mem_append, List.mem_singleton]
      rintro (hin | hid)
      · exact hout k (List.mem_cons_of_mem m hk) hin
      · exact hhead (hid ▸ List.mem_map_of_mem NodeE.id hk)
    obtain ⟨st', hrun, hI'⟩ := nodeInv_run ns (seen ++ [m.id]) st1 hI1 hu htail hout1
      (fun k hk => hval k (List.mem_cons_of_mem m hk))
    refine ⟨st', ?_, by simpa [List.append_assoc] using hI'⟩
    simp only [List.map_cons]
    unfold processElements
    have hwe : writePartialElement cfg st (Element.node m) = .ok st1 := hw
    rw [hwe]
    exact hrun

end Hoot

namespace Hoot

theorem nodeInv_open_offline (db : DbState) (cfg : WriterConfig)
    (hdb : db.nextChangesetId = 1) :
    NodeInv cfg.changesetUserId db.nextNodeId [] (openWriter Mode.offline db cfg) := by
  unfold NodeInv openWriter getLatestIdsFromDb initState
  simp [hdb]

theorem nodeInv_open_online (db : DbState) (cfg : WriterConfig) :
    NodeInv cfg.changesetUserId 1 [] (openWriter Mode.online db cfg) := by
  unfold NodeInv openWriter initState
  simp

theorem finalizeBulk_online_fwd {db : DbState} {st : WriterState}
    (hn : st.writeStats.nodesWritten ≠ 0)
    (hu : st.changesetData.changesetUserId ≠ -1)
    (hcs : st.changesetData.currentChangesetId = 1 ∨ st.sections.changesets ≠ none) :
    ∃ out, finalizeBulk Mode.online db st = .ok (some out) ∧
      out.sections.currentNodes =
        st.sections.currentNodes.map (fun r =>
          { r with
            id := r.id + (db.nextNodeId - 1)
            changesetId := r.changesetId + (db.nextChangesetId - 1) }) ∧
      out.sections.nodes =
        st.sections.nodes.map (fun r =>
          { r with
            id := r.id + (db.nextNodeId - 1)
            changesetId := r.changesetId + (db.nextChangesetId - 1) }) := by
  unfold finalizeBulk
  rw [if_neg (fun hh => hn hh.1)]
  by_cases hc : st.changesetData.changesInChangeset > 0
  · obtain ⟨st1, hw⟩ := writeChangesetToTable_fwd hu hcs
    rw [if_pos hc, hw]
    dsimp only
    obtain ⟨-, -, rfl⟩ := writeChangesetToTable_ok_inv hw
    by_cases hw0 : st.changesetData.changesetsWritten = 0
    · rw [if_pos hw0]
      rw [if_neg (show ¬_ = 0 from hn)]
      refine ⟨_, rfl, ?_, ?_⟩ <;> simp [updateIdOffsetsSections, getLatestIdsFromDb]
    · rw [if_neg hw0]
      rw [if_neg (show ¬_ = 0 from hn)]
      refine ⟨_, rfl, ?_, ?_⟩ <;> simp [updateIdOffsetsSections, getLatestIdsFromDb]
  · rw [if_neg hc]
    dsimp only
    by_cases hw0 : st.changesetData.changesetsWritten = 0
    · rw [if_pos hw0]
      rw [if_neg (show ¬_ = 0 from hn)]
      refine ⟨_, rfl, ?_, ?_⟩ <;> simp [updateIdOffsetsSections, getLatestIdsFromDb]
    · rw [if_neg hw0]
      rw [if_neg (show ¬_ = 0 from hn)]
      refine ⟨_, rfl, ?_, ?_⟩ <;> simp [updateIdOffsetsSections, getLatestIdsFromDb]

end Hoot

namespace Hoot

/-- C3: a stream of N nodes with distinct source ids yields exactly N
`current_nodes` rows and N `nodes` rows; offline their ids are
`start_node_id .. start_node_id + N - 1` in order, and after the online
rewrite they are `reserved_base + 1 .. reserved_base + N` where the
reserved base is the fetched next node id minus one. -/
theorem claim_c3_node_id_ranges (cfg : WriterConfig) (db : DbState) (ns : List NodeE)
    (hdist : (ns.map NodeE.id).Nodup)
    (hval : ∀ m ∈ ns, latValid m.lat ∧ lonValid m.lon)
    (hu : cfg.changesetUserId ≠ -1)
    (hdb : db.nextChangesetId = 1)
    (hne : ns ≠ []) :
    (∃ st,
      processElements cfg (openWriter Mode.offline db cfg) (ns.map Element.node) =
        .ok st ∧
      st.sections.currentNodes.map NodeRow.id =
        (List.range ns.length).map (fun i => db.nextNodeId + (i : Int)) ∧
      st.sections.nodes.map NodeRow.id =
        (List.range ns.length).map (fun i => db.nextNodeId + (i : Int))) ∧
    (∃ st out,
      processElements cfg (openWriter Mode.online db cfg) (ns.map Element.node) =
        .ok st ∧
      finalizeBulk Mode.online db st = .ok (some out) ∧
      out.sections.currentNodes.map NodeRow.id =
        (List.range ns.length).map (fun i => (db.nextNodeId - 1) + (1 + (i : Int))) ∧
      out.sections.nodes.map NodeRow.id =
        (List.range ns.length).map (fun i => (db.nextNodeId - 1) + (1 + (i : Int)))) := by
  have hmapped : ∀ (l : List NodeRow) (b cb : Int),
      (l.map (fun r => ({ r with
          id := r.id + b
          changesetId := r.changesetId + cb } : NodeRow))).map NodeRow.id =
        (l.map NodeRow.id).map (fun x => x + b) := by
    intro l b cb
    simp [List.map_map, Function.comp_def]
  constructor
  · obtain ⟨st, hr, hI⟩ := @nodeInv_run cfg _ _ ns []
      (openWriter Mode.offline db cfg) (nodeInv_open_offline db cfg hdb) hu hdist
      (by simp) hval
    obtain ⟨-, -, -, -, k5, k6, -, -, -, -⟩ := hI
    simp only [List.nil_append, List.length_map] at k5 k6
    exact ⟨st, hr, k5, k6⟩
  · obtain ⟨st, hr, hI⟩ := @nodeInv_run cfg _ _ ns []
      (openWriter Mode.online db cfg) (nodeInv_open_online db cfg) hu hdist
      (by simp) hval
    obtain ⟨k1, -, -, -, k5, k6, -, -, k9, k10⟩ := hI
    simp only [List.nil_append, List.length_map] at k1 k5 k6
    have hn : st.writeStats.nodesWritten ≠ 0 := by
      rw [k1]
      simpa using hne
    have hu' : st.changesetData.changesetUserId ≠ -1 := by
      rw [k9]; exact hu
    obtain ⟨out, hfin, ho1, ho2⟩ := @finalizeBulk_online_fwd db _ hn hu' k10
    refine ⟨st, out, hr, hfin, ?_, ?_⟩
    · rw [ho1, hmapped, k5, List.map_map]
      exact List.map_congr_left (fun a _ => by dsimp only [Function.comp]; ring)
    · rw [ho2, hmapped, k6, List.map_map]
      exact List.map_congr_left (fun a _ => by dsimp only [Function.comp]; ring)

/-- Witness for C3 at a single-node stream against a fresh database. -/
theorem claim_c3_node_id_ranges_witness :
    (∃ st,
      processElements exCfg (openWriter Mode.offline exDb exCfg)
        ([nodeOrigin].map Element.node) = .ok st ∧
      st.sections.currentNodes.map NodeRow.id =
        (List.range [nodeOrigin].length).map (fun i => exDb.nextNodeId + (i : Int)) ∧
      st.sections.nodes.map NodeRow.id =
        (List.range [nodeOrigin].length).map (fun i => exDb.nextNodeId + (i : Int))) ∧
    (∃ st out,
      processElements exCfg (openWriter Mode.online exDb exCfg)
        ([nodeOrigin].map Element.node) = .ok st ∧
      finalizeBulk Mode.online exDb st = .ok (some out) ∧
      out.sections.currentNodes.map NodeRow.id =
        (List.range [nodeOrigin].length).map
          (fun i => (exDb.nextNodeId - 1) + (1 + (i : Int))) ∧
      out.sections.nodes.map NodeRow.id =
        (List.range [nodeOrigin].length).map
          (fun i => (exDb.nextNodeId - 1) + (1 + (i : Int)))) :=
  claim_c3_node_id_ranges exCfg exDb [nodeOrigin] (by decide) (by decide) (by decide)
    (by decide) (by decide)

end Hoot
